import Mathlib

/-!
# `win/configure.js`

A shallow embedding of the build-configuration script `win/configure.js` and of its
four helper functions `GetValue`, `GetVersion`, `GetBaseVersion` and `GetVersionId`.

* A JScript string is a sequence of code units, modelled as `List Char`.
* The built-ins the script calls (`indexOf`, `charAt`, `substring`, `split`, `parseInt`,
  `+`, `<`, `==`) follow ECMA-262 (3rd edition, the edition JScript implements).
* A JScript number is a double: an integer is rounded to the nearest double where it is
  built (`parseInt`, numeric `+`) and printed with the fewest digits that convert back.
* `null` results are `none`.
* The text file the script writes is the list of the lines passed to `WriteLine`.
-/

namespace Configure

/-! ## Values -/

/-- A JScript string: its sequence of code units. -/
abbrev Str := List Char

/-- A JScript number as far as the script can produce one: `NaN`, an infinity, or a
double whose value is the integer `n`. Every `int n` the embedding builds comes out of
`JSNum.ofInt`, so `n` is always a value a double can hold. -/
inductive JSNum where
  | nan
  | inf (negative : Bool)
  | int (n : Int)
  deriving DecidableEq

/-- The JScript values held by the variables of the script. -/
inductive JSVal where
  | undefined
  | num (x : JSNum)
  | str (s : Str)
  deriving DecidableEq

/-- The position of the leading binary digit of `n` (`0` for `n < 2`), exact while
`n < 2 ^ fuel`. -/
def log2Fuel : Nat → Nat → Nat
  | 0, _ => 0
  | fuel + 1, n => if n < 2 then 0 else log2Fuel fuel (n / 2) + 1

/-- The number value of a natural number (ECMA-262 §8.5): itself below `2 ^ 53`, else
the nearest double, a tie going to the even significand; `none` stands for `+∞`, which
replaces `2 ^ 1024`. -/
def roundNat (n : Nat) : Option Nat :=
  if n < 2 ^ 53 then some n
  else if 1024 ≤ log2Fuel 1025 n then none
  else
    let e := log2Fuel 1025 n - 52
    let q := n / 2 ^ e
    let r := n % 2 ^ e
    let q1 := if 2 ^ (e - 1) < r ∨ (r = 2 ^ (e - 1) ∧ q % 2 = 1) then q + 1 else q
    if q1 = 2 ^ 53 ∧ e = 971 then none else some (q1 * 2 ^ e)

/-- The number value of an integer. -/
def JSNum.ofInt : Int → JSNum
  | Int.ofNat m =>
    match roundNat m with
    | some r => .int (r : Int)
    | none => .inf false
  | Int.negSucc m =>
    match roundNat (m + 1) with
    | some r => .int (-(r : Int))
    | none => .inf true

/-- The search of ECMA-262 §9.8.1 for the fewest significant digits: `k` digits are
tried from `k = 1` up, on the two multiples of `10 ^ (n - k)` around the double `m`
(which has `n` decimal digits); the result is the first of them whose number value is
`m`, the closer one (the even one on a tie) when both are. -/
def shortestAux (m n : Nat) : Nat → Nat → Nat
  | 0, _ => m
  | fuel + 1, k =>
    let t := n - k
    let lo := m / 10 ^ t * 10 ^ t
    let hi := lo + 10 ^ t
    if roundNat lo = some m then
      (if roundNat hi = some m ∧
          (hi - m < m - lo ∨ (hi - m = m - lo ∧ (m / 10 ^ t) % 2 = 1)) then hi
        else lo)
    else if roundNat hi = some m then hi
    else shortestAux m n fuel (k + 1)

/-- Number-to-string conversion (ECMA-262 §9.8.1) of a double of natural value `m`.
Below `2 ^ 53` every integer is a double, so the digits are those of `m`; above, they
are the fewest digits that convert back to `m`, zero-filled; from `10 ^ 21` on the
form is `d.ddde+N`. -/
def natToStr (m : Nat) : Str :=
  if m < 2 ^ 53 then Nat.toDigits 10 m
  else
    let ds := Nat.toDigits 10 (shortestAux m (Nat.toDigits 10 m).length (Nat.toDigits 10 m).length 1)
    if m < 10 ^ 21 then ds
    else
      let sig := (ds.reverse.dropWhile (fun c => c == '0')).reverse
      sig.take 1 ++ (if sig.drop 1 = [] then [] else '.' :: sig.drop 1) ++ "e+".toList ++
        Nat.toDigits 10 (ds.length - 1)

/-- Number-to-string conversion (ECMA-262 §9.8.1). -/
def JSNum.toStr : JSNum → Str
  | .nan => "NaN".toList
  | .inf false => "Infinity".toList
  | .inf true => "-Infinity".toList
  | .int (Int.ofNat m) => natToStr m
  | .int (Int.negSucc m) => '-' :: natToStr (m + 1)

/-- The conversion `ToString` that string concatenation applies to an operand. -/
def JSVal.toStr : JSVal → Str
  | .undefined => "undefined".toList
  | .num x => x.toStr
  | .str s => s

/-- Numeric addition (ECMA-262 §11.6.3): `NaN` is absorbing, infinities of opposite
sign give `NaN`, and a finite sum is rounded to its number value. -/
def JSNum.add : JSNum → JSNum → JSNum
  | .int a, .int b => JSNum.ofInt (a + b)
  | .inf s, .int _ => .inf s
  | .int _, .inf s => .inf s
  | .inf s, .inf t => if s = t then .inf s else .nan
  | _, _ => .nan

/-- The operator `+` (ECMA-262 §11.6.1): concatenation as soon as one operand is a
string, numeric addition otherwise (`undefined` converts to `NaN`). -/
def JSVal.add : JSVal → JSVal → JSVal
  | .str a, v => .str (a ++ v.toStr)
  | v, .str b => .str (v.toStr ++ b)
  | .num a, .num b => .num (a.add b)
  | _, _ => .num .nan

/-- The comparison `x < k` of a number with an integer constant: false on `NaN`. -/
def JSNum.lt (x : JSNum) (k : Int) : Bool :=
  match x with
  | .nan => false
  | .inf negative => negative
  | .int n => decide (n < k)

/-! ## String built-ins -/

/-- Clamping of an index argument into `[0, len]`. -/
def clamp (i : Int) (len : Nat) : Nat :=
  (min (max i 0) (len : Int)).toNat

/-- Search loop of `indexOf`: `rest` is the subject from offset `k` on. -/
def indexOfAux (search : Str) : Str → Nat → Int
  | [], k => if search = [] then (k : Int) else -1
  | c :: cs, k =>
    if search.isPrefixOf (c :: cs) then (k : Int) else indexOfAux search cs (k + 1)

/-- The call `s.indexOf(search, position)` (ECMA-262 §15.5.4.7): the smallest offset
not below the clamped `position` at which `search` occurs, or `-1`. -/
def indexOf (s search : Str) (position : Int) : Int :=
  indexOfAux search (s.drop (clamp position s.length)) (clamp position s.length)

/-- The call `s.charAt(pos)`: the one-character string at `pos`, or the empty string
when `pos` is outside the string. -/
def charAt (s : Str) (pos : Int) : Str :=
  if pos < 0 then []
  else
    match s[pos.toNat]? with
    | some c => [c]
    | none => []

/-- The call `s.substring(start, stop)` (ECMA-262 §15.5.4.15): both arguments are
clamped into `[0, length]` and swapped when the first exceeds the second. -/
def substring (s : Str) (start stop : Int) : Str :=
  let a := clamp start s.length
  let b := clamp stop s.length
  (s.drop (min a b)).take (max a b - min a b)

/-- The call `s.split(sep)` for a one-character separator: the pieces between all
the occurrences of `sep` (always at least one piece). -/
def split (sep : Char) : Str → List Str
  | [] => [[]]
  | c :: cs =>
    if c = sep then [] :: split sep cs
    else
      match split sep cs with
      | [] => [[c]]
      | p :: ps => (c :: p) :: ps

/-- The element `parts[k]` of an array of strings: `undefined` past its end. -/
def item (parts : List Str) (k : Nat) : JSVal :=
  match parts[k]? with
  | some s => .str s
  | none => .undefined

/-! ## Numeric conversions -/

/-- The characters `StrWhiteSpaceChar` of ECMA-262 §9.3.1: tab, vertical tab, form
feed, space, no-break space, the line terminators and the Unicode space separators. -/
def isStrWhiteSpaceChar (c : Char) : Bool :=
  [0x09, 0x0A, 0x0B, 0x0C, 0x0D, 0x20, 0xA0, 0x1680, 0x2028, 0x2029, 0x202F, 0x3000].contains
      c.toNat
    || (decide (0x2000 ≤ c.toNat) && decide (c.toNat ≤ 0x200B))

/-- The value of a sequence of decimal digits. -/
def digitsVal (ds : Str) : Nat :=
  ds.foldl (fun acc c => 10 * acc + (c.toNat - 48)) 0

/-- The call `parseInt(s, 10)` (ECMA-262 §15.1.2.2): leading white space is skipped,
one sign is read, then the longest run of decimal digits; `NaN` when that run is
empty, else the number value of the signed integer the digits spell. (Past 20
significant digits the standard lets an implementation zero the later ones; the
embedding converts the exact integer.) -/
def parseInt (s : Str) : JSNum :=
  let t := s.dropWhile isStrWhiteSpaceChar
  let u :=
    match t with
    | [] => []
    | c :: r => if c = '+' ∨ c = '-' then r else c :: r
  let z := u.takeWhile Char.isDigit
  if z = [] then .nan
  else if t.head? = some '-' then JSNum.ofInt (-(digitsVal z : Int))
  else JSNum.ofInt (digitsVal z : Int)

/-- A string with the white space at both ends removed. -/
def trim (s : Str) : Str :=
  ((s.dropWhile isStrWhiteSpaceChar).reverse.dropWhile isStrWhiteSpaceChar).reverse

/-- Whether the decimal value `m * 10 ^ (e - f)` rounds to the double zero: it is
zero, or it is not above `2 ^ (-1075)`, half the least positive double. -/
def decimalRoundsToZero (m f : Nat) (e : Int) : Bool :=
  decide (m = 0) || (decide (e - f < 0) && decide (m * 2 ^ 1075 ≤ 10 ^ ((f : Int) - e).toNat))

/-- The value of an `ExponentPart` that must fill the whole of `s` (`0` when `s` is
empty), or `none` when `s` is something else. -/
def exponentPart (s : Str) : Option Int :=
  match s with
  | [] => some 0
  | c :: r =>
    if c = 'e' ∨ c = 'E' then
      match r with
      | [] => none
      | d :: ds =>
        if d = '-' then
          (if ds ≠ [] ∧ ds.all Char.isDigit then some (-(digitsVal ds : Int)) else none)
        else if d = '+' then
          (if ds ≠ [] ∧ ds.all Char.isDigit then some (digitsVal ds : Int) else none)
        else if (d :: ds).all Char.isDigit then some (digitsVal (d :: ds) : Int)
        else none
    else none

/-- Whether `s` is a `StrUnsignedDecimalLiteral` (ECMA-262 §9.3.1) whose value converts
to the number zero. `Infinity` and strings outside the grammar (`NaN`) give `false`. -/
def unsignedDecimalIsZero (s : Str) : Bool :=
  if s = "Infinity".toList then false
  else
    let ip := s.takeWhile Char.isDigit
    let r := s.dropWhile Char.isDigit
    let fp :=
      match r with
      | [] => []
      | c :: t => if c = '.' then t.takeWhile Char.isDigit else []
    let r2 :=
      match r with
      | [] => []
      | c :: t => if c = '.' then t.dropWhile Char.isDigit else c :: t
    if ip = [] ∧ fp = [] then false
    else
      match exponentPart r2 with
      | none => false
      | some e => decimalRoundsToZero (digitsVal (ip ++ fp)) fp.length e

/-- A hexadecimal digit. -/
def isHexDigit (c : Char) : Bool :=
  c.isDigit || (decide ('a' ≤ c) && decide (c ≤ 'f')) || (decide ('A' ≤ c) && decide (c ≤ 'F'))

/-- Whether `ToNumber` of a string (ECMA-262 §9.3.1) is zero: the string, white space
trimmed, is empty, a hexadecimal literal of value zero, or a signed decimal literal
converting to zero. -/
def stringIsZero (s : Str) : Bool :=
  match trim s with
  | [] => true
  | c :: r =>
    if c = '0' ∧ (r.head? = some 'x' ∨ r.head? = some 'X') then
      decide (r.tail ≠ []) && r.tail.all isHexDigit && r.tail.all (fun h => h = '0')
    else if c = '+' ∨ c = '-' then unsignedDecimalIsZero r
    else unsignedDecimalIsZero (c :: r)

/-- The test `v == 0` (ECMA-262 §11.9.3): `undefined` is not equal to a number, a
number is compared as such, a string is converted with `ToNumber` first. -/
def looseEqZero : JSVal → Bool
  | .undefined => false
  | .num .nan => false
  | .num (.inf _) => false
  | .num (.int n) => decide (n = 0)
  | .str s => stringIsZero s

/-! ## The script -/

/-- The variables of the script, with `configfile` the lines written so far. -/
structure Vars where
  configfile : List Str
  default_comment : JSVal
  default_port : JSVal
  actual_port : JSVal

/-- The variables as the script initialises them, the output file just created. -/
def initVars : Vars where
  configfile := []
  default_comment := .str "Source distribution".toList
  default_port := .num (.int 3306)
  actual_port := .num (.int 0)

/-- One line appended to the output file by `WriteLine`. -/
def Vars.WriteLine (v : Vars) (line : Str) : Vars :=
  { v with configfile := v.configfile ++ [line] }

/-- The five case labels of the `switch` that write a `TRUE` line. -/
def flagKeys : List Str :=
  ["__NT__".toList, "CYBOZU".toList, "EXTRA_DEBUG".toList, "ENABLED_DEBUG_SYNC".toList,
    "EMBED_MANIFESTS".toList]

/-- The body of the `for` loop on one argument: `split('=')`, then the `switch` on
`parts[0]`, which has no `default` case. -/
def scanStep (v : Vars) (arg : Str) : Vars :=
  let parts := split '=' arg
  if item parts 0 ∈ flagKeys.map JSVal.str then
    v.WriteLine ("SET (".toList ++ arg ++ " TRUE)".toList)
  else if item parts 0 = .str "COMPILATION_COMMENT".toList then
    { v with default_comment := item parts 1 }
  else if item parts 0 = .str "MYSQL_TCP_PORT".toList then
    { v with actual_port := item parts 1 }
  else v

/-- The `for` loop over the arguments, in order. -/
def scan (args : List Str) : Vars :=
  args.foldl scanStep initVars

/-- The `if (actual_port == 0)` block after the loop. -/
def resolvePort (v : Vars) : Vars :=
  if looseEqZero v.actual_port then
    { v with actual_port := v.default_port, default_port := .num (.int 0) }
  else v

/-- The three `WriteLine` calls that end the script. -/
def writeTail (v : Vars) : Vars :=
  ((v.WriteLine ("SET (COMPILATION_COMMENT \"".toList ++ v.default_comment.toStr ++ "\")".toList)).WriteLine
      ("SET (MYSQL_TCP_PORT_DEFAULT \"".toList ++ v.default_port.toStr ++ "\")".toList)).WriteLine
    ("SET (MYSQL_TCP_PORT \"".toList ++ v.actual_port.toStr ++ "\")".toList)

/-- What a run leaves behind: the lines of `win\configure.data` and the text echoed. -/
structure Run where
  configfile : List Str
  echo : Str
  deriving DecidableEq

/-- The script on the argument list `args`, the file-system object performing every
operation asked of it (the `catch` branch is reached only when it raises). -/
def configure (args : List Str) : Run where
  configfile := (writeTail (resolvePort (scan args))).configfile
  echo := "done!".toList

/-! ## The helper functions -/

/-- The function `GetValue(str, key)`. -/
def GetValue (str key : Str) : Option Str :=
  let pos := indexOf str (key ++ ['=']) 0
  if pos = -1 then none
  else
    let pos := pos + key.length + 1
    let stop := indexOf str ['\n'] pos
    let pos := if charAt str pos = ['"'] then pos + 1 else pos
    let stop := if charAt str (stop - 1) = ['"'] then stop - 1 else stop
    some (substring str pos stop)

/-- The function `GetVersion(str)`. -/
def GetVersion (str : Str) : Option Str :=
  let key := "AC_INIT([MySQL Server], [".toList
  let pos := indexOf str key 0
  if pos = -1 then none
  else
    let pos := pos + key.length
    let stop := indexOf str [']'] pos
    if stop = -1 then none else some (substring str pos stop)

/-- The function `GetBaseVersion(version)`. -/
def GetBaseVersion (version : Str) : Option Str :=
  let dot := indexOf version ['.'] 0
  if dot = -1 then none
  else
    let dot := indexOf version ['.'] (dot + 1)
    let dot := if dot = -1 then (version.length : Int) else dot
    some (substring version 0 dot)

/-- The function `GetVersionId(version)`. The variable `id` starts as the number
`major`, and each `+=` is the operator `+` on whatever `id` holds by then. -/
def GetVersionId (version : Str) : Option JSVal :=
  let dot := indexOf version ['.'] 0
  if dot = -1 then none
  else
    let major := parseInt (substring version 0 dot)
    let dot := dot + 1
    let nextdot := indexOf version ['.'] dot
    if nextdot = -1 then none
    else
      let minor := parseInt (substring version dot nextdot)
      let dot := nextdot + 1
      let stop := indexOf version ['-'] dot
      let stop := if stop = -1 then (version.length : Int) else stop
      let build := parseInt (substring version dot stop)
      let id := JSVal.num major
      let id := if minor.lt 10 then id.add (.str ['0']) else id
      let id := id.add (.num minor)
      let id := if build.lt 10 then id.add (.str ['0']) else id
      let id := id.add (.num build)
      some id


/-! ## Vocabulary of the specification -/

/-- The name of an argument in the words of the specification: the text before its
first `=`, the whole argument when it has none. -/
def argName (a : Str) : Str :=
  a.takeWhile (fun c => c != '=')

/-- The line a flag argument writes: `SET (` + the argument + ` TRUE)`. -/
def flagLine (a : Str) : Str :=
  "SET (".toList ++ a ++ " TRUE)".toList

/-- The lines of the flag arguments of a list, in argument order. -/
def flagLines (args : List Str) : List Str :=
  (args.filter (fun a => decide (argName a ∈ flagKeys))).map flagLine

/-- The value `parts[1]` of the last argument of `args` named `key`, or `d` when no
argument has that name. -/
def lastValue (key : Str) (d : JSVal) (args : List Str) : JSVal :=
  args.foldl (fun acc a => if argName a = key then item (split '=' a) 1 else acc) d

/-- The first occurrence of `search` in `s`: `s` is `pre`, then `search`, then `post`,
and `search` occurs nowhere further to the left. -/
def FirstOcc (search s pre post : Str) : Prop :=
  s = pre ++ search ++ post ∧
    ∀ pre2 post2, s = pre2 ++ search ++ post2 → pre.length ≤ pre2.length

/-- A value with its quotes removed in the words of the specification: the first
character goes when the value begins with `"`, the last when it ends with `"`. -/
def stripQuotes (v : Str) : Str :=
  let w := if v.head? = some '"' then v.drop 1 else v
  if v.getLast? = some '"' then w.dropLast else w

/-! ## Lemmas on `split` -/

theorem split_ne_nil (sep : Char) (s : Str) : split sep s ≠ [] := by
  cases s with
  | nil => simp [split]
  | cons c cs =>
    unfold split
    split
    · simp
    · split <;> simp

theorem split_head (a : Str) : (split '=' a)[0]? = some (argName a) := by
  induction a with
  | nil => simp [split, argName]
  | cons c cs ih =>
    unfold split
    by_cases hc : c = '='
    · simp [hc, argName]
    · simp only [hc, if_false]
      cases hs : split '=' cs with
      | nil => exact absurd hs (split_ne_nil _ _)
      | cons p ps =>
        rw [hs] at ih
        simp at ih
        simp [argName, hc, ih]

theorem item_zero (a : Str) : item (split '=' a) 0 = .str (argName a) := by
  simp [item, split_head]

theorem split_key_eq (k v : Str) (hk : '=' ∉ k) :
    split '=' (k ++ '=' :: v) = k :: split '=' v := by
  induction k with
  | nil => simp [split]
  | cons c cs ih =>
    have hc : c ≠ '=' := fun h => hk (by simp [h])
    have hcs : '=' ∉ cs := fun h => hk (by simp [h])
    simp [split, hc, ih hcs]

theorem item_one_key_eq (k v : Str) (hk : '=' ∉ k) :
    item (split '=' (k ++ '=' :: v)) 1 = .str (argName v) := by
  rw [split_key_eq k v hk]
  simpa [item] using item_zero v

theorem argName_key_eq (k v : Str) (hk : '=' ∉ k) : argName (k ++ '=' :: v) = k := by
  induction k with
  | nil => simp [argName]
  | cons c cs ih =>
    have hc : c ≠ '=' := fun h => hk (by simp [h])
    have hcs : '=' ∉ cs := fun h => hk (by simp [h])
    have := ih hcs
    simp [argName, hc] at this ⊢
    exact this

theorem argName_of_no_eq (v : Str) (hv : '=' ∉ v) : argName v = v := by
  induction v with
  | nil => simp [argName]
  | cons c cs ih =>
    have hc : c ≠ '=' := fun h => hv (by simp [h])
    have hcs : '=' ∉ cs := fun h => hv (by simp [h])
    have := ih hcs
    simp [argName, hc] at this ⊢
    exact this

theorem item_one_of_no_eq (v : Str) (hv : '=' ∉ v) : item (split '=' v) 1 = .undefined := by
  have : split '=' v = [v] := by
    induction v with
    | nil => simp [split]
    | cons c cs ih =>
      have hc : c ≠ '=' := fun h => hv (by simp [h])
      have hcs : '=' ∉ cs := fun h => hv (by simp [h])
      simp [split, hc, ih hcs]
  simp [this, item]

/-! ## The loop body by cases -/

theorem scanStep_flag (v : Vars) (a : Str) (h : argName a ∈ flagKeys) :
    scanStep v a = v.WriteLine (flagLine a) := by
  have : JSVal.str (argName a) ∈ flagKeys.map JSVal.str := List.mem_map_of_mem _ h
  simp only [scanStep, item_zero, this, if_true, flagLine]

theorem str_mem_map (n : Str) (l : List Str) : JSVal.str n ∈ l.map JSVal.str ↔ n ∈ l := by
  simp

theorem scanStep_comment (v : Vars) (a : Str) (h : argName a = "COMPILATION_COMMENT".toList) :
    scanStep v a = { v with default_comment := item (split '=' a) 1 } := by
  have hn : ¬ JSVal.str (argName a) ∈ flagKeys.map JSVal.str := by
    rw [str_mem_map, h]; decide
  simp only [scanStep, item_zero]
  rw [if_neg hn, if_pos (by rw [h])]

theorem scanStep_port (v : Vars) (a : Str) (h : argName a = "MYSQL_TCP_PORT".toList) :
    scanStep v a = { v with actual_port := item (split '=' a) 1 } := by
  have hn : ¬ JSVal.str (argName a) ∈ flagKeys.map JSVal.str := by
    rw [str_mem_map, h]; decide
  have hc : ¬ (JSVal.str (argName a) = JSVal.str "COMPILATION_COMMENT".toList) := by
    rw [h]; decide
  simp only [scanStep, item_zero]
  rw [if_neg hn, if_neg hc, if_pos (by rw [h])]

theorem scanStep_other (v : Vars) (a : Str) (hf : argName a ∉ flagKeys)
    (hc : argName a ≠ "COMPILATION_COMMENT".toList) (hp : argName a ≠ "MYSQL_TCP_PORT".toList) :
    scanStep v a = v := by
  have hn : ¬ JSVal.str (argName a) ∈ flagKeys.map JSVal.str := by
    rw [str_mem_map]; exact hf
  have hc2 : ¬ (JSVal.str (argName a) = JSVal.str "COMPILATION_COMMENT".toList) :=
    fun e => hc (JSVal.str.inj e)
  have hp2 : ¬ (JSVal.str (argName a) = JSVal.str "MYSQL_TCP_PORT".toList) :=
    fun e => hp (JSVal.str.inj e)
  simp only [scanStep, item_zero]
  rw [if_neg hn, if_neg hc2, if_neg hp2]

/-! ## The loop as a whole -/

theorem flagLines_nil : flagLines [] = [] := rfl

theorem flagLines_cons_flag (a : Str) (l : List Str) (h : argName a ∈ flagKeys) :
    flagLines (a :: l) = flagLine a :: flagLines l := by
  unfold flagLines
  rw [List.filter_cons_of_pos (by simpa using h), List.map_cons]

theorem flagLines_cons_other (a : Str) (l : List Str) (h : argName a ∉ flagKeys) :
    flagLines (a :: l) = flagLines l := by
  unfold flagLines
  rw [List.filter_cons_of_neg (by simpa using h)]

theorem flagLines_append (l1 l2 : List Str) :
    flagLines (l1 ++ l2) = flagLines l1 ++ flagLines l2 := by
  unfold flagLines
  rw [List.filter_append, List.map_append]

theorem lastValue_nil (k : Str) (d : JSVal) : lastValue k d [] = d := rfl

theorem lastValue_cons_named (k : Str) (d : JSVal) (a : Str) (l : List Str)
    (h : argName a = k) : lastValue k d (a :: l) = lastValue k (item (split '=' a) 1) l := by
  unfold lastValue
  rw [List.foldl_cons, if_pos h]

theorem lastValue_cons_other (k : Str) (d : JSVal) (a : Str) (l : List Str)
    (h : argName a ≠ k) : lastValue k d (a :: l) = lastValue k d l := by
  unfold lastValue
  rw [List.foldl_cons, if_neg h]

theorem lastValue_append (k : Str) (d : JSVal) (l1 l2 : List Str) :
    lastValue k d (l1 ++ l2) = lastValue k (lastValue k d l1) l2 := by
  unfold lastValue
  rw [List.foldl_append]

theorem lastValue_of_none (k : Str) (d : JSVal) (l : List Str)
    (h : ∀ a ∈ l, argName a ≠ k) : lastValue k d l = d := by
  induction l generalizing d with
  | nil => rfl
  | cons a rest ih =>
    rw [lastValue_cons_other k d a rest (h a (List.mem_cons_self _ _))]
    exact ih d (fun b hb => h b (List.mem_cons_of_mem _ hb))

theorem lastValue_of_some (k : Str) (d e : JSVal) (l : List Str)
    (h : ∃ a ∈ l, argName a = k) : lastValue k d l = lastValue k e l := by
  induction l generalizing d e with
  | nil => obtain ⟨a, ha, _⟩ := h; cases ha
  | cons a rest ih =>
    by_cases hk : argName a = k
    · rw [lastValue_cons_named k d a rest hk, lastValue_cons_named k e a rest hk]
    · rw [lastValue_cons_other k d a rest hk, lastValue_cons_other k e a rest hk]
      apply ih
      obtain ⟨b, hb, hbk⟩ := h
      rcases List.mem_cons.mp hb with rfl | hb
      · exact absurd hbk hk
      · exact ⟨b, hb, hbk⟩

/-- The loop from any state: the flag lines are appended in order, the comment and the
port hold the value of the last argument of their name, `default_port` is untouched. -/
theorem foldl_scanStep (args : List Str) (v : Vars) :
    args.foldl scanStep v =
      { configfile := v.configfile ++ flagLines args
        default_comment := lastValue "COMPILATION_COMMENT".toList v.default_comment args
        default_port := v.default_port
        actual_port := lastValue "MYSQL_TCP_PORT".toList v.actual_port args } := by
  induction args generalizing v with
  | nil => simp only [List.foldl_nil, flagLines_nil, lastValue_nil, List.append_nil]
  | cons a rest ih =>
    rw [List.foldl_cons, ih]
    by_cases hf : argName a ∈ flagKeys
    · have hc : argName a ≠ "COMPILATION_COMMENT".toList := by
        intro h; rw [h] at hf; revert hf; decide
      have hp : argName a ≠ "MYSQL_TCP_PORT".toList := by
        intro h; rw [h] at hf; revert hf; decide
      rw [scanStep_flag v a hf, flagLines_cons_flag a rest hf, lastValue_cons_other _ _ a rest hc,
        lastValue_cons_other _ _ a rest hp]
      simp only [Vars.WriteLine, List.append_assoc, List.singleton_append]
    · rw [flagLines_cons_other a rest hf]
      by_cases hc : argName a = "COMPILATION_COMMENT".toList
      · have hp : argName a ≠ "MYSQL_TCP_PORT".toList := by rw [hc]; decide
        rw [scanStep_comment v a hc, lastValue_cons_named _ _ a rest hc,
          lastValue_cons_other _ _ a rest hp]
      · by_cases hp : argName a = "MYSQL_TCP_PORT".toList
        · rw [scanStep_port v a hp, lastValue_cons_named _ _ a rest hp,
            lastValue_cons_other _ _ a rest hc]
        · rw [scanStep_other v a hf hc hp, lastValue_cons_other _ _ a rest hc,
            lastValue_cons_other _ _ a rest hp]

theorem scan_eq (args : List Str) :
    scan args =
      { configfile := flagLines args
        default_comment :=
          lastValue "COMPILATION_COMMENT".toList (.str "Source distribution".toList) args
        default_port := .num (.int 3306)
        actual_port := lastValue "MYSQL_TCP_PORT".toList (.num (.int 0)) args } := by
  unfold scan
  rw [foldl_scanStep]
  simp only [initVars, List.nil_append]

theorem lastValue_last (k : Str) (d : JSVal) (l1 l2 : List Str) (a : Str)
    (h : argName a = k) (h2 : ∀ b ∈ l2, argName b ≠ k) :
    lastValue k d (l1 ++ a :: l2) = item (split '=' a) 1 := by
  rw [lastValue_append, lastValue_cons_named k _ a l2 h, lastValue_of_none k _ l2 h2]

theorem lastValue_remove_earlier (k : Str) (d : JSVal) (l1 l2 : List Str) (a : Str)
    (h : ∃ b ∈ l2, argName b = k) :
    lastValue k d (l1 ++ a :: l2) = lastValue k d (l1 ++ l2) := by
  rw [lastValue_append, lastValue_append]
  by_cases hk : argName a = k
  · rw [lastValue_cons_named k _ a l2 hk]
    exact lastValue_of_some k _ _ l2 h
  · rw [lastValue_cons_other k _ a l2 hk]

theorem lastValue_remove_other (k : Str) (d : JSVal) (l1 l2 : List Str) (a : Str)
    (h : argName a ≠ k) : lastValue k d (l1 ++ a :: l2) = lastValue k d (l1 ++ l2) := by
  rw [lastValue_append, lastValue_append, lastValue_cons_other k _ a l2 h]

theorem flagLines_remove_other (l1 l2 : List Str) (a : Str) (h : argName a ∉ flagKeys) :
    flagLines (l1 ++ a :: l2) = flagLines (l1 ++ l2) := by
  rw [flagLines_append, flagLines_append, flagLines_cons_other a l2 h]

/-- The file a run writes, in terms of the flag lines and of the last comment and port
arguments. -/
theorem configure_file (args : List Str) :
    (configure args).configfile =
      flagLines args ++
        ["SET (COMPILATION_COMMENT \"".toList ++
            (lastValue "COMPILATION_COMMENT".toList (.str "Source distribution".toList) args).toStr ++
            "\")".toList,
          "SET (MYSQL_TCP_PORT_DEFAULT \"".toList ++
            (if looseEqZero (lastValue "MYSQL_TCP_PORT".toList (.num (.int 0)) args) then "0".toList
              else "3306".toList) ++ "\")".toList,
          "SET (MYSQL_TCP_PORT \"".toList ++
            (if looseEqZero (lastValue "MYSQL_TCP_PORT".toList (.num (.int 0)) args) then
                "3306".toList
              else (lastValue "MYSQL_TCP_PORT".toList (.num (.int 0)) args).toStr) ++
            "\")".toList] := by
  have h0 : (JSVal.num (.int 0)).toStr = "0".toList := by decide
  have h1 : (JSVal.num (.int 3306)).toStr = "3306".toList := by decide
  unfold configure writeTail resolvePort
  rw [scan_eq]
  cases hz : looseEqZero (lastValue "MYSQL_TCP_PORT".toList (.num (.int 0)) args)
  · simp only [Bool.false_eq_true, if_false, Vars.WriteLine, h1, List.append_assoc,
      List.cons_append, List.nil_append]
  · simp only [if_true, Vars.WriteLine, h0, h1, List.append_assoc, List.cons_append,
      List.nil_append]

/-- A run is determined by the flag lines and the last comment and port values. -/
theorem configure_congr (xs ys : List Str) (hf : flagLines xs = flagLines ys)
    (hc : lastValue "COMPILATION_COMMENT".toList (.str "Source distribution".toList) xs =
      lastValue "COMPILATION_COMMENT".toList (.str "Source distribution".toList) ys)
    (hp : lastValue "MYSQL_TCP_PORT".toList (.num (.int 0)) xs =
      lastValue "MYSQL_TCP_PORT".toList (.num (.int 0)) ys) :
    configure xs = configure ys := by
  have hx := configure_file xs
  have hy := configure_file ys
  rw [hf, hc, hp, ← hy] at hx
  have he : (configure xs).echo = (configure ys).echo := rfl
  cases hcx : configure xs
  cases hcy : configure ys
  rw [hcx, hcy] at hx he
  simp only at hx he
  rw [hx, he]

/-- C5. When no argument is named `MYSQL_TCP_PORT`, the file ends with the two lines
`SET (MYSQL_TCP_PORT_DEFAULT "0")` and `SET (MYSQL_TCP_PORT "3306")`. -/
theorem configure_port_omitted (args : List Str)
    (h : ∀ a ∈ args, argName a ≠ "MYSQL_TCP_PORT".toList) :
    ∃ pre, (configure args).configfile =
      pre ++ ["SET (MYSQL_TCP_PORT_DEFAULT \"0\")".toList, "SET (MYSQL_TCP_PORT \"3306\")".toList] := by
  refine ⟨flagLines args ++ ["SET (COMPILATION_COMMENT \"".toList ++
    (lastValue "COMPILATION_COMMENT".toList (.str "Source distribution".toList) args).toStr ++
    "\")".toList], ?_⟩
  rw [configure_file, lastValue_of_none _ _ args h]
  have hz : looseEqZero (.num (.int 0)) = true := by decide
  rw [if_pos hz, if_pos hz]
  simp only [List.append_assoc, List.singleton_append]
  rfl

/-- C5 at the arguments `__NT__`, `COMPILATION_COMMENT=x`, none of which is named
`MYSQL_TCP_PORT`. -/
theorem configure_port_omitted_witness :
    (∀ a ∈ ["__NT__".toList, "COMPILATION_COMMENT=x".toList], argName a ≠ "MYSQL_TCP_PORT".toList) ∧
    ∃ pre, (configure ["__NT__".toList, "COMPILATION_COMMENT=x".toList]).configfile =
      pre ++ ["SET (MYSQL_TCP_PORT_DEFAULT \"0\")".toList, "SET (MYSQL_TCP_PORT \"3306\")".toList] :=
  ⟨by decide, configure_port_omitted _ (by decide)⟩

theorem flagLines_filter (p : Str → Bool) (l : List Str)
    (hp : ∀ a, argName a ∈ flagKeys → p a = true) : flagLines (l.filter p) = flagLines l := by
  induction l with
  | nil => rfl
  | cons a rest ih =>
    by_cases hf : argName a ∈ flagKeys
    · rw [List.filter_cons_of_pos (hp a hf), flagLines_cons_flag a _ hf,
        flagLines_cons_flag a _ hf, ih]
    · rw [flagLines_cons_other a rest hf]
      cases hpa : p a
      · rw [List.filter_cons_of_neg (by simp [hpa]), ih]
      · rw [List.filter_cons_of_pos hpa, flagLines_cons_other a _ hf, ih]

theorem lastValue_filter (k : Str) (p : Str → Bool) (d : JSVal) (l : List Str)
    (hp : ∀ a, argName a = k → p a = true) : lastValue k d (l.filter p) = lastValue k d l := by
  induction l generalizing d with
  | nil => rfl
  | cons a rest ih =>
    by_cases hk : argName a = k
    · rw [List.filter_cons_of_pos (hp a hk), lastValue_cons_named k d a _ hk,
        lastValue_cons_named k d a _ hk, ih]
    · rw [lastValue_cons_other k d a rest hk]
      cases hpa : p a
      · rw [List.filter_cons_of_neg (by simp [hpa]), ih]
      · rw [List.filter_cons_of_pos hpa, lastValue_cons_other k d a _ hk, ih]

theorem configure_eq_of_file (xs ys : List Str)
    (h : (configure xs).configfile = (configure ys).configfile) : configure xs = configure ys := by
  have he : (configure xs).echo = (configure ys).echo := rfl
  cases hcx : configure xs
  cases hcy : configure ys
  rw [hcx, hcy] at h he
  simp only at h he
  rw [h, he]

theorem flagKey_ne_comment (n : Str) (h : n ∈ flagKeys) : n ≠ "COMPILATION_COMMENT".toList := by
  intro e; rw [e] at h; revert h; decide

theorem flagKey_ne_port (n : Str) (h : n ∈ flagKeys) : n ≠ "MYSQL_TCP_PORT".toList := by
  intro e; rw [e] at h; revert h; decide

/-- C7. When the last argument named `MYSQL_TCP_PORT` is exactly `MYSQL_TCP_PORT=0`, the
run equals the run on the same list with every argument named `MYSQL_TCP_PORT` removed,
and the file ends with `SET (MYSQL_TCP_PORT_DEFAULT "0")` and `SET (MYSQL_TCP_PORT "3306")`. -/
theorem configure_port_zero (l1 l2 : List Str)
    (hlast : ∀ a ∈ l2, argName a ≠ "MYSQL_TCP_PORT".toList) :
    configure (l1 ++ "MYSQL_TCP_PORT=0".toList :: l2) =
        configure ((l1 ++ "MYSQL_TCP_PORT=0".toList :: l2).filter
          (fun a => decide (argName a ≠ "MYSQL_TCP_PORT".toList))) ∧
      ∃ pre, (configure (l1 ++ "MYSQL_TCP_PORT=0".toList :: l2)).configfile =
        pre ++ ["SET (MYSQL_TCP_PORT_DEFAULT \"0\")".toList,
          "SET (MYSQL_TCP_PORT \"3306\")".toList] := by
  have hname : argName "MYSQL_TCP_PORT=0".toList = "MYSQL_TCP_PORT".toList := by decide
  have hval : item (split '=' "MYSQL_TCP_PORT=0".toList) 1 = .str "0".toList := by decide
  have hz : looseEqZero (.str "0".toList) = true := by decide
  have hz0 : looseEqZero (.num (.int 0)) = true := by decide
  have hfile := configure_file (l1 ++ "MYSQL_TCP_PORT=0".toList :: l2)
  rw [lastValue_last _ _ l1 l2 _ hname hlast, hval, if_pos hz, if_pos hz] at hfile
  constructor
  · apply configure_eq_of_file
    rw [hfile, configure_file, flagLines_filter, lastValue_filter, lastValue_of_none
      "MYSQL_TCP_PORT".toList, if_pos hz0, if_pos hz0]
    · intro a ha
      simpa using (List.mem_filter.mp ha).2
    · intro a ha
      have : argName a ≠ "MYSQL_TCP_PORT".toList := by rw [ha]; decide
      simpa using this
    · intro a ha
      simpa using flagKey_ne_port _ ha
  · refine ⟨flagLines (l1 ++ "MYSQL_TCP_PORT=0".toList :: l2) ++
      ["SET (COMPILATION_COMMENT \"".toList ++
        (lastValue "COMPILATION_COMMENT".toList (.str "Source distribution".toList)
          (l1 ++ "MYSQL_TCP_PORT=0".toList :: l2)).toStr ++ "\")".toList], ?_⟩
    rw [hfile]
    simp only [List.append_assoc, List.singleton_append]
    rfl

/-- C7 at the arguments `MYSQL_TCP_PORT=3307`, `CYBOZU`, `MYSQL_TCP_PORT=0`, `__NT__`. -/
theorem configure_port_zero_witness :
    (∀ a ∈ ["__NT__".toList], argName a ≠ "MYSQL_TCP_PORT".toList) ∧
    (configure (["MYSQL_TCP_PORT=3307".toList, "CYBOZU".toList] ++
          "MYSQL_TCP_PORT=0".toList :: ["__NT__".toList]) =
        configure ((["MYSQL_TCP_PORT=3307".toList, "CYBOZU".toList] ++
          "MYSQL_TCP_PORT=0".toList :: ["__NT__".toList]).filter
          (fun a => decide (argName a ≠ "MYSQL_TCP_PORT".toList))) ∧
      ∃ pre, (configure (["MYSQL_TCP_PORT=3307".toList, "CYBOZU".toList] ++
          "MYSQL_TCP_PORT=0".toList :: ["__NT__".toList])).configfile =
        pre ++ ["SET (MYSQL_TCP_PORT_DEFAULT \"0\")".toList,
          "SET (MYSQL_TCP_PORT \"3306\")".toList]) :=
  ⟨by decide, configure_port_zero _ _ (by decide)⟩

/-- C8. When an argument named `COMPILATION_COMMENT` (respectively `MYSQL_TCP_PORT`) is
followed later in the list by another argument of the same name, removing it leaves the
whole run unchanged: the last occurrence wins. -/
theorem configure_last_wins (key : Str)
    (hkey : key = "COMPILATION_COMMENT".toList ∨ key = "MYSQL_TCP_PORT".toList)
    (l1 l2 : List Str) (a : Str) (ha : argName a = key) (hlater : ∃ b ∈ l2, argName b = key) :
    configure (l1 ++ a :: l2) = configure (l1 ++ l2) := by
  have hnf : argName a ∉ flagKeys := by
    intro hf
    rcases hkey with h | h
    · exact flagKey_ne_comment _ hf (ha.trans h)
    · exact flagKey_ne_port _ hf (ha.trans h)
  apply configure_congr
  · exact flagLines_remove_other l1 l2 a hnf
  · rcases hkey with h | h
    · exact lastValue_remove_earlier _ _ l1 l2 a (h ▸ hlater)
    · apply lastValue_remove_other
      rw [ha, h]; decide
  · rcases hkey with h | h
    · apply lastValue_remove_other
      rw [ha, h]; decide
    · exact lastValue_remove_earlier _ _ l1 l2 a (h ▸ hlater)

/-- C8 at the arguments `__NT__`, `COMPILATION_COMMENT=one`, `MYSQL_TCP_PORT=1`,
`COMPILATION_COMMENT=two`, the first comment being removed. -/
theorem configure_last_wins_witness :
    ("COMPILATION_COMMENT".toList = "COMPILATION_COMMENT".toList ∨
        "COMPILATION_COMMENT".toList = "MYSQL_TCP_PORT".toList) ∧
      argName "COMPILATION_COMMENT=one".toList = "COMPILATION_COMMENT".toList ∧
      (∃ b ∈ ["MYSQL_TCP_PORT=1".toList, "COMPILATION_COMMENT=two".toList],
        argName b = "COMPILATION_COMMENT".toList) ∧
      configure (["__NT__".toList] ++ "COMPILATION_COMMENT=one".toList ::
          ["MYSQL_TCP_PORT=1".toList, "COMPILATION_COMMENT=two".toList]) =
        configure (["__NT__".toList] ++
          ["MYSQL_TCP_PORT=1".toList, "COMPILATION_COMMENT=two".toList]) :=
  ⟨Or.inl rfl, by decide, by decide,
    configure_last_wins _ (Or.inl rfl) _ _ _ (by decide) (by decide)⟩

/-- C9. An argument whose name is none of the five flag keys, `COMPILATION_COMMENT` or
`MYSQL_TCP_PORT` can be inserted or removed at any position without changing the run:
the lines written are the same and the script still reports `done!`. -/
theorem configure_ignores_unrecognized (l1 l2 : List Str) (a : Str)
    (hf : argName a ∉ flagKeys) (hc : argName a ≠ "COMPILATION_COMMENT".toList)
    (hp : argName a ≠ "MYSQL_TCP_PORT".toList) :
    (configure (l1 ++ a :: l2)).configfile = (configure (l1 ++ l2)).configfile ∧
      (configure (l1 ++ a :: l2)).echo = "done!".toList ∧
      (configure (l1 ++ l2)).echo = "done!".toList := by
  have h : configure (l1 ++ a :: l2) = configure (l1 ++ l2) :=
    configure_congr _ _ (flagLines_remove_other l1 l2 a hf)
      (lastValue_remove_other _ _ l1 l2 a hc) (lastValue_remove_other _ _ l1 l2 a hp)
  exact ⟨by rw [h], rfl, rfl⟩

/-- C9 at the arguments `__NT__`, `WITH_FOO=1`, `MYSQL_TCP_PORT=7`. -/
theorem configure_ignores_unrecognized_witness :
    argName "WITH_FOO=1".toList ∉ flagKeys ∧
      argName "WITH_FOO=1".toList ≠ "COMPILATION_COMMENT".toList ∧
      argName "WITH_FOO=1".toList ≠ "MYSQL_TCP_PORT".toList ∧
      (configure (["__NT__".toList] ++ "WITH_FOO=1".toList :: ["MYSQL_TCP_PORT=7".toList])).configfile =
        (configure (["__NT__".toList] ++ ["MYSQL_TCP_PORT=7".toList])).configfile ∧
      (configure (["__NT__".toList] ++ "WITH_FOO=1".toList :: ["MYSQL_TCP_PORT=7".toList])).echo =
        "done!".toList ∧
      (configure (["__NT__".toList] ++ ["MYSQL_TCP_PORT=7".toList])).echo = "done!".toList :=
  ⟨by decide, by decide, by decide,
    configure_ignores_unrecognized _ _ _ (by decide) (by decide) (by decide)⟩

/-- C10. The file is exactly: for each argument whose name is a flag key, in argument
order, the line `SET (` + the whole argument + ` TRUE)`; then the `COMPILATION_COMMENT`
line, the `MYSQL_TCP_PORT_DEFAULT` line and the `MYSQL_TCP_PORT` line. Its length is the
number of flag-named arguments plus 3, and the end-to-end example gives the four lines of
the specification. -/
theorem configure_output_shape (args : List Str) :
    (∃ c d p : Str, (configure args).configfile =
        (args.filter (fun a => decide (argName a ∈ flagKeys))).map
            (fun a => "SET (".toList ++ a ++ " TRUE)".toList) ++
          ["SET (COMPILATION_COMMENT \"".toList ++ c ++ "\")".toList,
            "SET (MYSQL_TCP_PORT_DEFAULT \"".toList ++ d ++ "\")".toList,
            "SET (MYSQL_TCP_PORT \"".toList ++ p ++ "\")".toList]) ∧
      (configure args).configfile.length =
        args.countP (fun a => decide (argName a ∈ flagKeys)) + 3 ∧
      (configure ["__NT__".toList, "COMPILATION_COMMENT=Custom Build".toList,
          "MYSQL_TCP_PORT=3307".toList]).configfile =
        ["SET (__NT__ TRUE)".toList, "SET (COMPILATION_COMMENT \"Custom Build\")".toList,
          "SET (MYSQL_TCP_PORT_DEFAULT \"3306\")".toList, "SET (MYSQL_TCP_PORT \"3307\")".toList] := by
  refine ⟨⟨_, _, _, configure_file args⟩, ?_, by decide⟩
  rw [configure_file, List.length_append, flagLines, List.length_map, List.countP_eq_length_filter]
  rfl

/-! ## Decimal numerals under `ToNumber` -/

theorem digit_bounds (c : Char) (h : c.isDigit = true) : 48 ≤ c.toNat ∧ c.toNat ≤ 57 := by
  simp only [Char.isDigit, Bool.and_eq_true, decide_eq_true_eq, ge_iff_le] at h
  obtain ⟨h1, h2⟩ := h
  rw [UInt32.le_def] at h1 h2
  simp only [Char.toNat]
  constructor
  · simpa using h1
  · simpa using h2

theorem toNat_ne_of_ne (c d : Char) (h : c ≠ d) : c.toNat ≠ d.toNat := by
  intro e
  apply h
  apply Char.ext
  apply UInt32.ext
  simpa [Char.toNat] using e

theorem digit_not_space (c : Char) (h : c.isDigit = true) : isStrWhiteSpaceChar c = false := by
  obtain ⟨h1, h2⟩ := digit_bounds c h
  simp only [isStrWhiteSpaceChar, List.contains, List.elem, Bool.or_eq_false_iff,
    Bool.and_eq_false_iff, decide_eq_false_iff_not]
  refine ⟨?_, Or.inl (by omega)⟩
  have e : ∀ k : Nat, k ≠ c.toNat → (c.toNat == k) = false := by
    intro k hk
    simpa using fun h => hk h.symm
  rw [e 9 (by omega), e 10 (by omega), e 11 (by omega), e 12 (by omega), e 13 (by omega),
    e 32 (by omega), e 160 (by omega), e 5760 (by omega), e 8232 (by omega), e 8233 (by omega),
    e 8239 (by omega), e 12288 (by omega)]

theorem digitsVal_foldl_pos (ds : Str) (acc : Nat)
    (h : 0 < acc ∨ ∃ c ∈ ds, c.isDigit = true ∧ c ≠ '0') :
    0 < ds.foldl (fun acc c => 10 * acc + (c.toNat - 48)) acc := by
  induction ds generalizing acc with
  | nil =>
    rcases h with h | ⟨c, hc, _⟩
    · exact h
    · cases hc
  | cons c cs ih =>
    rw [List.foldl_cons]
    apply ih
    rcases h with h | ⟨d, hd, hdig, hne⟩
    · left; omega
    · rcases List.mem_cons.mp hd with rfl | hd
      · left
        have := (digit_bounds d hdig).1
        have := toNat_ne_of_ne d '0' hne
        have h0 : ('0' : Char).toNat = 48 := by decide
        omega
      · right; exact ⟨d, hd, hdig, hne⟩

theorem digitsVal_pos (ds : Str) (hd : ∀ c ∈ ds, c.isDigit = true) (hnz : ∃ c ∈ ds, c ≠ '0') :
    0 < digitsVal ds := by
  obtain ⟨c, hc, hne⟩ := hnz
  exact digitsVal_foldl_pos ds 0 (Or.inr ⟨c, hc, hd c hc, hne⟩)

theorem trim_eq_self (s : Str) (h1 : ∀ c, s.head? = some c → isStrWhiteSpaceChar c = false)
    (h2 : ∀ c, s.getLast? = some c → isStrWhiteSpaceChar c = false) : trim s = s := by
  cases s with
  | nil => rfl
  | cons c r =>
    have hc : isStrWhiteSpaceChar c = false := h1 c rfl
    unfold trim
    rw [List.dropWhile_cons, hc]
    simp only [Bool.false_eq_true, if_false]
    cases hrev : (c :: r).reverse with
    | nil => simp at hrev
    | cons x xs =>
      have hx : isStrWhiteSpaceChar x = false := by
        apply h2
        rw [List.getLast?_eq_head?_reverse, hrev]
        rfl
      rw [List.dropWhile_cons, hx]
      simp only [Bool.false_eq_true, if_false]
      rw [← hrev, List.reverse_reverse]

theorem unsignedDecimalIsZero_digits (ds : Str) (hne : ds ≠ [])
    (hd : ∀ c ∈ ds, c.isDigit = true) (hnz : ∃ c ∈ ds, c ≠ '0') :
    unsignedDecimalIsZero ds = false := by
  have hinf : ds ≠ "Infinity".toList := by
    intro e
    have : ('I' : Char).isDigit = true := hd 'I' (by rw [e]; decide)
    revert this; decide
  have htake : ds.takeWhile Char.isDigit = ds := List.takeWhile_eq_self_iff.mpr hd
  have hdrop : ds.dropWhile Char.isDigit = [] := List.dropWhile_eq_nil_iff.mpr hd
  have hpos := digitsVal_pos ds hd hnz
  unfold unsignedDecimalIsZero
  rw [if_neg hinf]
  simp only [htake, hdrop, List.append_nil, exponentPart]
  rw [if_neg (fun h => hne h.1)]
  simp only [decimalRoundsToZero, List.length_nil]
  have hm : decide (digitsVal ds = 0) = false := decide_eq_false (by omega)
  have he : decide ((0 : Int) - ((0 : Nat) : Int) < 0) = false := by decide
  rw [hm, he]
  rfl

/-- The string of a decimal numeral of a non-zero integer (digits `ds`, not all `0`, after
an optional sign) does not convert to the number zero. -/
theorem stringIsZero_numeral (sgn ds : Str) (hs : sgn = [] ∨ sgn = ['-'] ∨ sgn = ['+'])
    (hne : ds ≠ []) (hd : ∀ c ∈ ds, c.isDigit = true) (hnz : ∃ c ∈ ds, c ≠ '0') :
    stringIsZero (sgn ++ ds) = false := by
  have hudz := unsignedDecimalIsZero_digits ds hne hd hnz
  have hlast : ∀ c, (sgn ++ ds).getLast? = some c → isStrWhiteSpaceChar c = false := by
    intro c hc
    rw [List.getLast?_append_of_ne_nil _ hne] at hc
    exact digit_not_space c (hd c (List.mem_of_getLast?_eq_some hc))
  unfold stringIsZero
  rcases hs with rfl | rfl | rfl
  · rw [List.nil_append] at hlast ⊢
    rw [trim_eq_self ds (fun c hc => digit_not_space c (hd c (List.mem_of_mem_head? hc))) hlast]
    cases ds with
    | nil => exact absurd rfl hne
    | cons c r =>
      have hcd : c.isDigit = true := hd c (List.mem_cons_self _ _)
      have hx : ¬ (c = '0' ∧ (r.head? = some 'x' ∨ r.head? = some 'X')) := by
        rintro ⟨_, h | h⟩
        · have : ('x' : Char).isDigit = true :=
            hd 'x' (List.mem_cons_of_mem _ (List.mem_of_mem_head? h))
          revert this; decide
        · have : ('X' : Char).isDigit = true :=
            hd 'X' (List.mem_cons_of_mem _ (List.mem_of_mem_head? h))
          revert this; decide
      have hsg : ¬ (c = '+' ∨ c = '-') := by
        rintro (h | h) <;> (rw [h] at hcd; revert hcd; decide)
      simp only [hx, hsg, if_false]
      exact hudz
  · rw [trim_eq_self _ (fun c hc => by cases hc; decide) hlast]
    simp only [List.singleton_append]
    rw [if_pos (Or.inr trivial)]
    exact hudz
  · rw [trim_eq_self _ (fun c hc => by cases hc; decide) hlast]
    simp only [List.singleton_append]
    rw [if_pos (Or.inl trivial)]
    exact hudz

/-- C6. When the last argument named `MYSQL_TCP_PORT` is `MYSQL_TCP_PORT=N` with `N` the
decimal numeral of a non-zero integer (an optional sign, then digits that are not all
`0`), the file ends with `SET (MYSQL_TCP_PORT_DEFAULT "3306")` and `SET (MYSQL_TCP_PORT "N")`,
`N` reproduced character for character. -/
theorem configure_port_nonzero (l1 l2 : List Str) (sgn ds : Str)
    (hs : sgn = [] ∨ sgn = ['-'] ∨ sgn = ['+']) (hne : ds ≠ [])
    (hd : ∀ c ∈ ds, c.isDigit = true) (hnz : ∃ c ∈ ds, c ≠ '0')
    (hlast : ∀ a ∈ l2, argName a ≠ "MYSQL_TCP_PORT".toList) :
    ∃ pre, (configure (l1 ++ ("MYSQL_TCP_PORT=".toList ++ (sgn ++ ds)) :: l2)).configfile =
      pre ++ ["SET (MYSQL_TCP_PORT_DEFAULT \"3306\")".toList,
        "SET (MYSQL_TCP_PORT \"".toList ++ (sgn ++ ds) ++ "\")".toList] := by
  have hform : "MYSQL_TCP_PORT=".toList ++ (sgn ++ ds) =
      "MYSQL_TCP_PORT".toList ++ '=' :: (sgn ++ ds) := rfl
  have hk : '=' ∉ "MYSQL_TCP_PORT".toList := by decide
  have hN : '=' ∉ sgn ++ ds := by
    intro h
    rcases List.mem_append.mp h with h | h
    · rcases hs with rfl | rfl | rfl <;> revert h <;> decide
    · have := hd '=' h
      revert this; decide
  have hname : argName ("MYSQL_TCP_PORT=".toList ++ (sgn ++ ds)) = "MYSQL_TCP_PORT".toList := by
    rw [hform]; exact argName_key_eq _ _ hk
  have hval : item (split '=' ("MYSQL_TCP_PORT=".toList ++ (sgn ++ ds))) 1 = .str (sgn ++ ds) := by
    rw [hform, item_one_key_eq _ _ hk, argName_of_no_eq _ hN]
  have hz : ¬ looseEqZero (.str (sgn ++ ds)) = true := by
    show ¬ stringIsZero (sgn ++ ds) = true
    rw [stringIsZero_numeral sgn ds hs hne hd hnz]
    decide
  refine ⟨flagLines (l1 ++ ("MYSQL_TCP_PORT=".toList ++ (sgn ++ ds)) :: l2) ++
    ["SET (COMPILATION_COMMENT \"".toList ++
      (lastValue "COMPILATION_COMMENT".toList (.str "Source distribution".toList)
        (l1 ++ ("MYSQL_TCP_PORT=".toList ++ (sgn ++ ds)) :: l2)).toStr ++ "\")".toList], ?_⟩
  rw [configure_file, lastValue_last _ _ l1 l2 _ hname hlast, hval, if_neg hz, if_neg hz]
  simp only [JSVal.toStr, List.append_assoc, List.singleton_append]
  rfl

/-- C6 at the arguments `MYSQL_TCP_PORT=1`, `MYSQL_TCP_PORT=3307`, `__NT__`. -/
theorem configure_port_nonzero_witness :
    (([] : Str) = [] ∨ ([] : Str) = ['-'] ∨ ([] : Str) = ['+']) ∧ "3307".toList ≠ [] ∧
      (∀ c ∈ "3307".toList, c.isDigit = true) ∧ (∃ c ∈ "3307".toList, c ≠ '0') ∧
      (∀ a ∈ ["__NT__".toList], argName a ≠ "MYSQL_TCP_PORT".toList) ∧
      ∃ pre, (configure (["MYSQL_TCP_PORT=1".toList] ++
          ("MYSQL_TCP_PORT=".toList ++ ([] ++ "3307".toList)) :: ["__NT__".toList])).configfile =
        pre ++ ["SET (MYSQL_TCP_PORT_DEFAULT \"3306\")".toList,
          "SET (MYSQL_TCP_PORT \"".toList ++ ([] ++ "3307".toList) ++ "\")".toList] :=
  ⟨Or.inl rfl, by decide, by decide, by decide, by decide,
    configure_port_nonzero _ _ _ _ (Or.inl rfl) (by decide) (by decide) (by decide) (by decide)⟩

/-! ## The comment line and the flag lines -/

/-- C3, as the code has it. When the last argument named `COMPILATION_COMMENT` is
`COMPILATION_COMMENT=` followed by `X`, the comment line (third from the end) is
`SET (COMPILATION_COMMENT "V")` with `V` the part of `X` before its first `=`, which is
`X` itself when `X` holds no `=`; with no argument of that name the line is
`SET (COMPILATION_COMMENT "Source distribution")`. -/
theorem configure_comment_line (l1 l2 : List Str) (X : Str)
    (hlast : ∀ a ∈ l2, argName a ≠ "COMPILATION_COMMENT".toList) :
    (∃ pre d p, (configure (l1 ++ ("COMPILATION_COMMENT=".toList ++ X) :: l2)).configfile =
        pre ++ ["SET (COMPILATION_COMMENT \"".toList ++ X.takeWhile (fun c => c != '=') ++
          "\")".toList, d, p]) ∧
      ('=' ∉ X →
        ∃ pre d p, (configure (l1 ++ ("COMPILATION_COMMENT=".toList ++ X) :: l2)).configfile =
          pre ++ ["SET (COMPILATION_COMMENT \"".toList ++ X ++ "\")".toList, d, p]) ∧
      ∃ pre d p, (configure l2).configfile =
        pre ++ ["SET (COMPILATION_COMMENT \"Source distribution\")".toList, d, p] := by
  have hform : "COMPILATION_COMMENT=".toList ++ X = "COMPILATION_COMMENT".toList ++ '=' :: X := rfl
  have hk : '=' ∉ "COMPILATION_COMMENT".toList := by decide
  have hname : argName ("COMPILATION_COMMENT=".toList ++ X) = "COMPILATION_COMMENT".toList := by
    rw [hform]; exact argName_key_eq _ _ hk
  have hval : item (split '=' ("COMPILATION_COMMENT=".toList ++ X)) 1 = .str (argName X) := by
    rw [hform, item_one_key_eq _ _ hk]
  have hfile := configure_file (l1 ++ ("COMPILATION_COMMENT=".toList ++ X) :: l2)
  rw [lastValue_last "COMPILATION_COMMENT".toList _ l1 l2 _ hname hlast, hval] at hfile
  refine ⟨⟨_, _, _, hfile⟩, fun hX => ?_, ?_⟩
  · rw [argName_of_no_eq X hX] at hfile
    exact ⟨_, _, _, hfile⟩
  · have h2 := configure_file l2
    rw [lastValue_of_none "COMPILATION_COMMENT".toList _ l2 hlast] at h2
    exact ⟨_, _, _, h2⟩

/-- C3 at the arguments `__NT__`, `COMPILATION_COMMENT=Custom Build`, `MYSQL_TCP_PORT=3307`. -/
theorem configure_comment_line_witness :
    (∀ a ∈ ["MYSQL_TCP_PORT=3307".toList], argName a ≠ "COMPILATION_COMMENT".toList) ∧
    ((∃ pre d p, (configure (["__NT__".toList] ++ ("COMPILATION_COMMENT=".toList ++
          "Custom Build".toList) :: ["MYSQL_TCP_PORT=3307".toList])).configfile =
        pre ++ ["SET (COMPILATION_COMMENT \"".toList ++
          "Custom Build".toList.takeWhile (fun c => c != '=') ++ "\")".toList, d, p]) ∧
      ('=' ∉ "Custom Build".toList →
        ∃ pre d p, (configure (["__NT__".toList] ++ ("COMPILATION_COMMENT=".toList ++
            "Custom Build".toList) :: ["MYSQL_TCP_PORT=3307".toList])).configfile =
          pre ++ ["SET (COMPILATION_COMMENT \"".toList ++ "Custom Build".toList ++
            "\")".toList, d, p]) ∧
      ∃ pre d p, (configure ["MYSQL_TCP_PORT=3307".toList]).configfile =
        pre ++ ["SET (COMPILATION_COMMENT \"Source distribution\")".toList, d, p]) :=
  ⟨by decide, configure_comment_line _ _ _ (by decide)⟩

/-- C3 fails as stated: on the single argument `COMPILATION_COMMENT=a=b` the value after
the first `=` is `a=b`, yet the file is `SET (COMPILATION_COMMENT "a")` followed by the two
port lines, so its comment line is not `SET (COMPILATION_COMMENT "a=b")`. -/
theorem configure_comment_value_with_eq :
    (configure ["COMPILATION_COMMENT=a=b".toList]).configfile =
        ["SET (COMPILATION_COMMENT \"a\")".toList, "SET (MYSQL_TCP_PORT_DEFAULT \"0\")".toList,
          "SET (MYSQL_TCP_PORT \"3306\")".toList] ∧
      ¬ ∃ pre d p, (configure ["COMPILATION_COMMENT=a=b".toList]).configfile =
        pre ++ ["SET (COMPILATION_COMMENT \"a=b\")".toList, d, p] := by
  have hfile : (configure ["COMPILATION_COMMENT=a=b".toList]).configfile =
      ["SET (COMPILATION_COMMENT \"a\")".toList, "SET (MYSQL_TCP_PORT_DEFAULT \"0\")".toList,
        "SET (MYSQL_TCP_PORT \"3306\")".toList] := by decide
  refine ⟨hfile, ?_⟩
  rintro ⟨pre, d, p, h⟩
  rw [hfile] at h
  have hlen := congrArg List.length h
  simp only [List.length_append, List.length_cons, List.length_nil] at hlen
  have hpre : pre = [] := List.length_eq_zero.mp (by omega)
  subst hpre
  rw [List.nil_append] at h
  have hhead := (List.cons.inj h).1
  revert hhead
  decide

theorem flagLine_injective : Function.Injective flagLine := by
  intro a b h
  unfold flagLine at h
  exact List.append_cancel_left (List.append_cancel_right h)

theorem flagLine_ne_quoted (a x : Str) : flagLine a ≠ x ++ "\")".toList := by
  intro h
  have hr := congrArg List.reverse h
  simp [flagLine] at hr

theorem flagLine_not_mem_tail (a c d p : Str) :
    flagLine a ∉ [c ++ "\")".toList, d ++ "\")".toList, p ++ "\")".toList] := by
  intro h
  simp only [List.mem_cons, List.mem_singleton, List.not_mem_nil, or_false] at h
  rcases h with h | h | h <;> exact flagLine_ne_quoted _ _ h

theorem count_map_flagLine (l : List Str) (a : Str) :
    (l.map flagLine).count (flagLine a) = l.count a := by
  induction l with
  | nil => rfl
  | cons b rest ih =>
    rw [List.map_cons, List.count_cons, List.count_cons, ih]
    by_cases hb : b = a
    · simp [hb]
    · have : flagLine b ≠ flagLine a := fun h => hb (flagLine_injective h)
      simp [hb, this]

theorem count_flagLine (args : List Str) (a : Str) (ha : argName a ∈ flagKeys) :
    (configure args).configfile.count (flagLine a) = args.count a := by
  rw [configure_file, List.count_append,
    List.count_eq_zero_of_not_mem (flagLine_not_mem_tail a _ _ _), Nat.add_zero, flagLines,
    count_map_flagLine]
  exact List.count_filter (by simpa using ha)

/-- C4, as the code has it. For a flag key `F`, every argument named `F` writes one line
`SET (` + the whole argument + ` TRUE)`: for each token `a` named `F` that line occurs in
the file as many times as `a` occurs among the arguments, so `SET (F TRUE)` occurs as many
times as the bare token `F` does; and when no argument is named `F`, no such line is in
the file. -/
theorem configure_flag_lines (args : List Str) (F : Str) (hF : F ∈ flagKeys) :
    (∀ a, argName a = F →
        (configure args).configfile.count ("SET (".toList ++ a ++ " TRUE)".toList) =
          args.count a) ∧
      (configure args).configfile.count ("SET (".toList ++ F ++ " TRUE)".toList) = args.count F ∧
      ((∀ b ∈ args, argName b ≠ F) →
        ∀ a, argName a = F →
          "SET (".toList ++ a ++ " TRUE)".toList ∉ (configure args).configfile) := by
  have hself : ∀ K ∈ flagKeys, argName K = K := by decide
  have hcount : ∀ a, argName a = F →
      (configure args).configfile.count ("SET (".toList ++ a ++ " TRUE)".toList) =
        args.count a :=
    fun a ha => count_flagLine args a (ha ▸ hF)
  refine ⟨hcount, hcount F (hself F hF), fun hnone a ha => ?_⟩
  have hnot : a ∉ args := fun hmem => hnone a hmem ha
  have h0 := hcount a ha
  rw [List.count_eq_zero_of_not_mem hnot] at h0
  exact List.count_eq_zero.mp h0

/-- C4 at the flag key `__NT__` and the arguments `__NT__=1`, `CYBOZU`, `__NT__=1`. -/
theorem configure_flag_lines_witness :
    "__NT__".toList ∈ flagKeys ∧
    ((∀ a, argName a = "__NT__".toList →
        (configure ["__NT__=1".toList, "CYBOZU".toList, "__NT__=1".toList]).configfile.count
            ("SET (".toList ++ a ++ " TRUE)".toList) =
          ["__NT__=1".toList, "CYBOZU".toList, "__NT__=1".toList].count a) ∧
      (configure ["__NT__=1".toList, "CYBOZU".toList, "__NT__=1".toList]).configfile.count
          ("SET (".toList ++ "__NT__".toList ++ " TRUE)".toList) =
        ["__NT__=1".toList, "CYBOZU".toList, "__NT__=1".toList].count "__NT__".toList ∧
      ((∀ b ∈ ["__NT__=1".toList, "CYBOZU".toList, "__NT__=1".toList],
          argName b ≠ "__NT__".toList) →
        ∀ a, argName a = "__NT__".toList →
          "SET (".toList ++ a ++ " TRUE)".toList ∉
            (configure ["__NT__=1".toList, "CYBOZU".toList, "__NT__=1".toList]).configfile)) :=
  ⟨by decide, configure_flag_lines _ _ (by decide)⟩

/-- C4 fails as stated: with the arguments `__NT__`, `__NT__` an argument is named `__NT__`
and the file holds the line `SET (__NT__ TRUE)` twice; with the single argument `__NT__=1`
an argument is named `__NT__` and the file holds no line `SET (__NT__ TRUE)`, the line
written being `SET (__NT__=1 TRUE)`. -/
theorem configure_flag_line_not_exactly_one :
    ((∃ a ∈ ["__NT__".toList, "__NT__".toList], argName a = "__NT__".toList) ∧
        (configure ["__NT__".toList, "__NT__".toList]).configfile.count
          "SET (__NT__ TRUE)".toList = 2) ∧
      (∃ a ∈ ["__NT__=1".toList], argName a = "__NT__".toList) ∧
      (configure ["__NT__=1".toList]).configfile.count "SET (__NT__ TRUE)".toList = 0 ∧
      (configure ["__NT__=1".toList]).configfile =
        ["SET (__NT__=1 TRUE)".toList, "SET (COMPILATION_COMMENT \"Source distribution\")".toList,
          "SET (MYSQL_TCP_PORT_DEFAULT \"0\")".toList, "SET (MYSQL_TCP_PORT \"3306\")".toList] := by
  decide

/-! ## The helper functions at the inputs where they part from the specification -/

/-- C1, the code at `5.10.20`: `id` is still the number `5` when the two-digit `minor` is
added, so both `+=` are numeric additions and the result is the number `35`, not the
string `51020`. -/
theorem GetVersionId_two_digit_minor :
    GetVersionId "5.10.20".toList = some (.num (.int 35)) ∧
      GetVersionId "5.10.20".toList ≠ some (.str "51020".toList) ∧
      GetVersionId "5.10.7".toList = some (.str "1507".toList) := by
  decide

/-- C2, the code at `GetValue("FOO=bar", "FOO")`: no newline follows, `indexOf` gives `-1`
for the end, and `substring(4, -1)` is the text before the value, `FOO=`, not `bar`. -/
theorem GetValue_without_newline :
    GetValue "FOO=bar".toList "FOO".toList = some "FOO=".toList ∧
      GetValue "FOO=bar".toList "FOO".toList ≠ some "bar".toList ∧
      GetValue "FOO=bar\n".toList "FOO".toList = some "bar".toList := by
  decide

/-! ## Lemmas on `indexOf`, `substring` and `charAt` -/

theorem clamp_natCast (n len : Nat) : clamp (n : Int) len = min n len := by
  unfold clamp
  omega

theorem natCast_ne_neg_one (n : Nat) : ¬ ((n : Int) = -1) := by omega

theorem indexOfAux_char_found (c : Char) (mid post : Str) (k : Nat) (h : c ∉ mid) :
    indexOfAux [c] (mid ++ c :: post) k = ((k + mid.length : Nat) : Int) := by
  induction mid generalizing k with
  | nil => simp [indexOfAux, List.isPrefixOf]
  | cons x xs ih =>
    have hx : c ≠ x := fun e => h (by simp [e])
    have hxs : c ∉ xs := fun e => h (by simp [e])
    have e : indexOfAux [c] (x :: xs ++ c :: post) k =
        if [c].isPrefixOf (x :: (xs ++ c :: post)) then (k : Int)
        else indexOfAux [c] (xs ++ c :: post) (k + 1) := rfl
    rw [e, ih (k + 1) hxs]
    simp [List.isPrefixOf, hx]
    omega

theorem indexOfAux_char_none (c : Char) (mid : Str) (k : Nat) (h : c ∉ mid) :
    indexOfAux [c] mid k = -1 := by
  induction mid generalizing k with
  | nil => simp [indexOfAux]
  | cons x xs ih =>
    have hx : c ≠ x := fun e => h (by simp [e])
    have hxs : c ∉ xs := fun e => h (by simp [e])
    simp only [indexOfAux, List.isPrefixOf]
    rw [ih (k + 1) hxs]
    simp [hx]

theorem indexOf_char_found (pre mid post : Str) (c : Char) (p : Int) (hp : p = (pre.length : Int))
    (h : c ∉ mid) :
    indexOf (pre ++ mid ++ c :: post) [c] p = ((pre.length + mid.length : Nat) : Int) := by
  subst hp
  unfold indexOf
  rw [clamp_natCast]
  have hmin : min pre.length (pre ++ mid ++ c :: post).length = pre.length := by
    simp only [List.length_append, List.length_cons]; omega
  rw [hmin, List.append_assoc, List.drop_left]
  exact indexOfAux_char_found c mid post pre.length h

theorem indexOf_char_none (pre mid : Str) (c : Char) (p : Int) (hp : p = (pre.length : Int))
    (h : c ∉ mid) : indexOf (pre ++ mid) [c] p = -1 := by
  subst hp
  unfold indexOf
  rw [clamp_natCast]
  have hmin : min pre.length (pre ++ mid).length = pre.length := by
    simp only [List.length_append]; omega
  rw [hmin, List.drop_left]
  exact indexOfAux_char_none c mid pre.length h

theorem substring_mid (pre mid post : Str) (p q : Int) (hp : p = (pre.length : Int))
    (hq : q = ((pre.length + mid.length : Nat) : Int)) :
    substring (pre ++ mid ++ post) p q = mid := by
  subst hp hq
  unfold substring
  simp only [clamp_natCast]
  have h1 : min pre.length (pre ++ mid ++ post).length = pre.length := by
    simp only [List.length_append]; omega
  have h2 : min (pre.length + mid.length) (pre ++ mid ++ post).length =
      pre.length + mid.length := by
    simp only [List.length_append]; omega
  rw [h1, h2]
  have h3 : min pre.length (pre.length + mid.length) = pre.length := by omega
  have h4 : max pre.length (pre.length + mid.length) - pre.length = mid.length := by omega
  rw [h3, h4, List.append_assoc, List.drop_left, List.take_left]

theorem mem_split_first (c : Char) (l : Str) (h : c ∈ l) :
    ∃ a b, l = a ++ c :: b ∧ c ∉ a := by
  induction l with
  | nil => cases h
  | cons x xs ih =>
    by_cases hx : x = c
    · exact ⟨[], xs, by simp [hx], by simp⟩
    · rcases List.mem_cons.mp h with e | hm
      · exact absurd e.symm hx
      · obtain ⟨a, b, hl, ha⟩ := ih hm
        refine ⟨x :: a, b, by simp [hl], ?_⟩
        intro hc
        rcases List.mem_cons.mp hc with e | hm2
        · exact hx e.symm
        · exact ha hm2

/-- A string has no `c`, or exactly one, or a first and a second one. -/
theorem char_cases (c : Char) (v : Str) :
    c ∉ v ∨ (∃ a b, v = a ++ c :: b ∧ c ∉ a ∧ c ∉ b) ∨
      ∃ a b r, v = a ++ c :: b ++ c :: r ∧ c ∉ a ∧ c ∉ b := by
  by_cases h : c ∈ v
  · obtain ⟨a, b, hv, ha⟩ := mem_split_first c v h
    by_cases hb : c ∈ b
    · obtain ⟨b1, r, hb1, hb2⟩ := mem_split_first c b hb
      exact Or.inr (Or.inr ⟨a, b1, r, by rw [hv, hb1]; simp, ha, hb2⟩)
    · exact Or.inr (Or.inl ⟨a, b, hv, ha, hb⟩)
  · exact Or.inl h

theorem count_of_one (c : Char) (a b : Str) (ha : c ∉ a) (hb : c ∉ b) :
    (a ++ c :: b).count c = 1 := by
  rw [List.count_append, List.count_cons_self, List.count_eq_zero_of_not_mem ha,
    List.count_eq_zero_of_not_mem hb]

theorem count_of_two (c : Char) (a b r : Str) : 2 ≤ (a ++ c :: b ++ c :: r).count c := by
  rw [List.count_append, List.count_append, List.count_cons_self, List.count_cons_self]
  omega

/-! ## `GetBaseVersion` and `GetVersionId` by the number of dots -/

theorem GetBaseVersion_no_dot (v : Str) (h : '.' ∉ v) : GetBaseVersion v = none := by
  have h1 : indexOf v ['.'] 0 = -1 := by
    simpa using indexOf_char_none [] v '.' 0 rfl h
  simp only [GetBaseVersion, h1, if_true]

theorem GetBaseVersion_one_dot (a b : Str) (ha : '.' ∉ a) (hb : '.' ∉ b) :
    GetBaseVersion (a ++ '.' :: b) = some (a ++ '.' :: b) := by
  have h1 : indexOf (a ++ '.' :: b) ['.'] 0 = (a.length : Int) := by
    simpa using indexOf_char_found [] a b '.' 0 rfl ha
  have h2 : indexOf (a ++ '.' :: b) ['.'] ((a.length : Int) + 1) = -1 := by
    have := indexOf_char_none (a ++ ['.']) b '.' ((a.length : Int) + 1) (by simp) hb
    simpa using this
  have h3 : substring (a ++ '.' :: b) 0 ((a ++ '.' :: b).length : Int) = a ++ '.' :: b := by
    simpa using substring_mid [] (a ++ '.' :: b) [] 0 ((a ++ '.' :: b).length : Int) rfl
      (by simp)
  simp only [GetBaseVersion, h1, natCast_ne_neg_one, if_false, h2, if_true, h3]

theorem GetBaseVersion_two_dots (a b r : Str) (ha : '.' ∉ a) (hb : '.' ∉ b) :
    GetBaseVersion (a ++ '.' :: b ++ '.' :: r) = some (a ++ '.' :: b) := by
  have h1 : indexOf (a ++ '.' :: b ++ '.' :: r) ['.'] 0 = (a.length : Int) := by
    have := indexOf_char_found [] a (b ++ '.' :: r) '.' 0 rfl ha
    simpa using this
  have h2 : indexOf (a ++ '.' :: b ++ '.' :: r) ['.'] ((a.length : Int) + 1) =
      ((a.length + 1 + b.length : Nat) : Int) := by
    have := indexOf_char_found (a ++ ['.']) b r '.' ((a.length : Int) + 1) (by simp) hb
    simpa using this
  have h3 : substring (a ++ '.' :: b ++ '.' :: r) 0 ((a.length + 1 + b.length : Nat) : Int) =
      a ++ '.' :: b := by
    have := substring_mid [] (a ++ '.' :: b) ('.' :: r) 0 ((a.length + 1 + b.length : Nat) : Int)
      rfl (by simp; omega)
    simpa using this
  simp only [GetBaseVersion, h1, natCast_ne_neg_one, if_false, h2, h3]

theorem GetVersionId_no_dot (v : Str) (h : '.' ∉ v) : GetVersionId v = none := by
  have h1 : indexOf v ['.'] 0 = -1 := by
    simpa using indexOf_char_none [] v '.' 0 rfl h
  simp only [GetVersionId, h1, if_true]

theorem GetVersionId_one_dot (a b : Str) (ha : '.' ∉ a) (hb : '.' ∉ b) :
    GetVersionId (a ++ '.' :: b) = none := by
  have h1 : indexOf (a ++ '.' :: b) ['.'] 0 = (a.length : Int) := by
    simpa using indexOf_char_found [] a b '.' 0 rfl ha
  have h2 : indexOf (a ++ '.' :: b) ['.'] ((a.length : Int) + 1) = -1 := by
    have := indexOf_char_none (a ++ ['.']) b '.' ((a.length : Int) + 1) (by simp) hb
    simpa using this
  simp only [GetVersionId, h1, natCast_ne_neg_one, if_false, h2, if_true]

theorem GetVersionId_two_dots (a b r : Str) (ha : '.' ∉ a) (hb : '.' ∉ b) :
    GetVersionId (a ++ '.' :: b ++ '.' :: r) ≠ none := by
  have h1 : indexOf (a ++ '.' :: b ++ '.' :: r) ['.'] 0 = (a.length : Int) := by
    have := indexOf_char_found [] a (b ++ '.' :: r) '.' 0 rfl ha
    simpa using this
  have h2 : indexOf (a ++ '.' :: b ++ '.' :: r) ['.'] ((a.length : Int) + 1) =
      ((a.length + 1 + b.length : Nat) : Int) := by
    have := indexOf_char_found (a ++ ['.']) b r '.' ((a.length : Int) + 1) (by simp) hb
    simpa using this
  simp only [GetVersionId, h1, natCast_ne_neg_one, if_false, h2]
  exact Option.some_ne_none _

/-- C14. `GetBaseVersion` returns `null` exactly on the strings without a `.`; on a
string with one `.` it returns the whole string, on a string with more it returns the
part before the second `.`; so a result is always a prefix of the input holding exactly
one `.`, and `GetBaseVersion("5.1.7-beta")` is `5.1`. -/
theorem GetBaseVersion_spec (version : Str) :
    (GetBaseVersion version = none ↔ '.' ∉ version) ∧
      (∀ a b, '.' ∉ a → '.' ∉ b → version = a ++ '.' :: b →
        GetBaseVersion version = some version) ∧
      (∀ a b r, '.' ∉ a → '.' ∉ b → version = a ++ '.' :: b ++ '.' :: r →
        GetBaseVersion version = some (a ++ '.' :: b)) ∧
      (∀ res, GetBaseVersion version = some res → res <+: version ∧ res.count '.' = 1) ∧
      GetBaseVersion "5.1.7-beta".toList = some "5.1".toList := by
  refine ⟨?_, ?_, ?_, ?_, by decide⟩
  · constructor
    · intro h hmem
      rcases char_cases '.' version with h0 | ⟨a, b, hv, ha, hb⟩ | ⟨a, b, r, hv, ha, hb⟩
      · exact h0 hmem
      · rw [hv, GetBaseVersion_one_dot a b ha hb] at h; cases h
      · rw [hv, GetBaseVersion_two_dots a b r ha hb] at h; cases h
    · exact GetBaseVersion_no_dot version
  · intro a b ha hb hv
    rw [hv]; exact GetBaseVersion_one_dot a b ha hb
  · intro a b r ha hb hv
    rw [hv]; exact GetBaseVersion_two_dots a b r ha hb
  · intro res h
    rcases char_cases '.' version with h0 | ⟨a, b, hv, ha, hb⟩ | ⟨a, b, r, hv, ha, hb⟩
    · rw [GetBaseVersion_no_dot version h0] at h; cases h
    · rw [hv, GetBaseVersion_one_dot a b ha hb] at h
      cases h
      rw [hv]
      exact ⟨List.prefix_refl _, count_of_one '.' a b ha hb⟩
    · rw [hv, GetBaseVersion_two_dots a b r ha hb] at h
      cases h
      rw [hv]
      exact ⟨List.prefix_append _ _, count_of_one '.' a b ha hb⟩

/-- C15. `GetVersionId` returns `null` exactly on the strings with fewer than two `.`;
hence wherever it returns a value `GetBaseVersion` does too, while `5.1` has a base
version and no version id. -/
theorem GetVersionId_none_iff (version : Str) :
    (GetVersionId version = none ↔ version.count '.' < 2) ∧
      (GetVersionId version ≠ none → GetBaseVersion version ≠ none) ∧
      GetBaseVersion "5.1".toList = some "5.1".toList ∧ GetVersionId "5.1".toList = none := by
  refine ⟨?_, ?_, by decide, by decide⟩
  · rcases char_cases '.' version with h0 | ⟨a, b, hv, ha, hb⟩ | ⟨a, b, r, hv, ha, hb⟩
    · rw [GetVersionId_no_dot version h0, List.count_eq_zero_of_not_mem h0]
      simp
    · rw [hv, GetVersionId_one_dot a b ha hb, count_of_one '.' a b ha hb]
      simp
    · rw [hv]
      have h2 := count_of_two '.' a b r
      constructor
      · intro h; exact absurd h (GetVersionId_two_dots a b r ha hb)
      · intro h; omega
  · intro h hb
    rcases char_cases '.' version with h0 | ⟨a, b, hv, ha, hb2⟩ | ⟨a, b, r, hv, ha, hb2⟩
    · exact h (GetVersionId_no_dot version h0)
    · rw [hv, GetBaseVersion_one_dot a b ha hb2] at hb; cases hb
    · rw [hv, GetBaseVersion_two_dots a b r ha hb2] at hb; cases hb

/-- C19. `GetBaseVersion` is idempotent: applied to one of its own results it returns
that result again. -/
theorem GetBaseVersion_idempotent (v res : Str) (h : GetBaseVersion v = some res) :
    GetBaseVersion res = some res := by
  rcases char_cases '.' v with h0 | ⟨a, b, hv, ha, hb⟩ | ⟨a, b, r, hv, ha, hb⟩
  · rw [GetBaseVersion_no_dot v h0] at h; cases h
  · rw [hv, GetBaseVersion_one_dot a b ha hb] at h
    cases h
    exact GetBaseVersion_one_dot a b ha hb
  · rw [hv, GetBaseVersion_two_dots a b r ha hb] at h
    cases h
    exact GetBaseVersion_one_dot a b ha hb

/-- C19 at `5.1.7-beta`, whose base version is `5.1`. -/
theorem GetBaseVersion_idempotent_witness :
    GetBaseVersion "5.1.7-beta".toList = some "5.1".toList ∧
      GetBaseVersion "5.1".toList = some "5.1".toList :=
  ⟨by decide, GetBaseVersion_idempotent "5.1.7-beta".toList "5.1".toList (by decide)⟩

/-! ## `indexOf` for an arbitrary search string -/

theorem indexOfAux_spec (search rest : Str) (k : Nat) :
    (indexOfAux search rest k = -1 ∧ ¬ search <:+: rest) ∨
      ∃ pre post, FirstOcc search rest pre post ∧
        indexOfAux search rest k = ((k + pre.length : Nat) : Int) := by
  induction rest generalizing k with
  | nil =>
    by_cases hs : search = []
    · right
      refine ⟨[], [], ⟨by simp [hs], fun _ _ _ => Nat.zero_le _⟩, ?_⟩
      simp [indexOfAux, hs]
    · left
      refine ⟨by simp [indexOfAux, hs], ?_⟩
      intro h
      exact hs (List.infix_nil.mp h)
  | cons c cs ih =>
    have e : indexOfAux search (c :: cs) k =
        if search.isPrefixOf (c :: cs) then (k : Int) else indexOfAux search cs (k + 1) := rfl
    by_cases hp : search.isPrefixOf (c :: cs) = true
    · right
      obtain ⟨post, hpost⟩ := List.isPrefixOf_iff_prefix.mp hp
      refine ⟨[], post, ⟨by simp [hpost], fun _ _ _ => Nat.zero_le _⟩, ?_⟩
      rw [e, if_pos hp]
      simp
    · rw [e, if_neg hp]
      have hnp : ¬ search <+: c :: cs := fun h => hp (List.isPrefixOf_iff_prefix.mpr h)
      rcases ih (k + 1) with ⟨h1, h2⟩ | ⟨pre, post, ⟨hcs, hmin⟩, hidx⟩
      · left
        refine ⟨h1, ?_⟩
        intro h
        rcases List.infix_cons_iff.mp h with h | h
        · exact hnp h
        · exact h2 h
      · right
        refine ⟨c :: pre, post, ⟨by simp [hcs], ?_⟩, ?_⟩
        · intro pre2 post2 h2
          cases pre2 with
          | nil => exact absurd ⟨post2, by simpa using h2.symm⟩ hnp
          | cons x xs =>
            have hx : cs = xs ++ search ++ post2 := by
              simp only [List.cons_append] at h2
              exact (List.cons.inj h2).2
            have := hmin xs post2 hx
            simp only [List.length_cons]
            omega
        · rw [hidx]
          simp only [List.length_cons]
          congr 1
          omega

theorem indexOf_zero_spec (s search : Str) :
    (indexOf s search 0 = -1 ∧ ¬ search <:+: s) ∨
      ∃ pre post, FirstOcc search s pre post ∧ indexOf s search 0 = (pre.length : Int) := by
  have h0 : clamp 0 s.length = 0 := by unfold clamp; omega
  have e : indexOf s search 0 = indexOfAux search s 0 := by
    unfold indexOf
    rw [h0, List.drop_zero]
  rw [e]
  rcases indexOfAux_spec search s 0 with h | ⟨pre, post, hf, hi⟩
  · exact Or.inl h
  · exact Or.inr ⟨pre, post, hf, by rw [hi]; simp⟩

theorem FirstOcc_occurs (search s pre post : Str) (h : FirstOcc search s pre post) :
    search <:+: s := ⟨pre, post, h.1.symm⟩

theorem FirstOcc_unique (search s p1 q1 p2 q2 : Str) (h1 : FirstOcc search s p1 q1)
    (h2 : FirstOcc search s p2 q2) : p1 = p2 ∧ q1 = q2 := by
  have hl : p1.length = p2.length :=
    Nat.le_antisymm (h1.2 p2 q2 h2.1) (h2.2 p1 q1 h1.1)
  have he : p1 ++ (search ++ q1) = p2 ++ (search ++ q2) := by
    rw [← List.append_assoc, ← List.append_assoc, ← h1.1, ← h2.1]
  obtain ⟨hp, hq⟩ := List.append_inj he hl
  exact ⟨hp, List.append_cancel_left hq⟩

theorem indexOf_of_firstOcc (search s pre post : Str) (h : FirstOcc search s pre post) :
    indexOf s search 0 = (pre.length : Int) := by
  rcases indexOf_zero_spec s search with ⟨_, hn⟩ | ⟨p, q, hf, hi⟩
  · exact absurd (FirstOcc_occurs search s pre post h) hn
  · rw [hi, (FirstOcc_unique search s p q pre post hf h).1]

/-- C11. `GetValue(text, key)` returns `null` if and only if `key + "="` does not occur
anywhere in `text`. -/
theorem GetValue_none_iff (text key : Str) :
    GetValue text key = none ↔ ¬ (key ++ ['=']) <:+: text := by
  rcases indexOf_zero_spec text (key ++ ['=']) with ⟨h1, h2⟩ | ⟨pre, post, hf, hi⟩
  · simp only [GetValue, h1, if_true, h2, not_false_eq_true]
  · have hin := FirstOcc_occurs _ _ _ _ hf
    simp only [GetValue, hi, natCast_ne_neg_one, if_false, hin, not_true_eq_false, iff_false]
    exact Option.some_ne_none _

/-! ## `GetVersion` -/

theorem GetVersion_of_firstOcc_open (str pre post : Str)
    (h : FirstOcc "AC_INIT([MySQL Server], [".toList str pre post) (hp : ']' ∉ post) :
    GetVersion str = none := by
  have h1 := indexOf_of_firstOcc _ _ _ _ h
  have h2 : indexOf str [']']
      ((pre.length : Int) + ("AC_INIT([MySQL Server], [".toList.length : Nat)) = -1 := by
    have := indexOf_char_none (pre ++ "AC_INIT([MySQL Server], [".toList) post ']'
      ((pre.length : Int) + ("AC_INIT([MySQL Server], [".toList.length : Nat))
      (by rw [List.length_append]; push_cast; rfl) hp
    rw [← h.1] at this
    exact this
  simp only [GetVersion, h1, natCast_ne_neg_one, if_false, h2, if_true]

theorem GetVersion_of_firstOcc_closed (str pre r rest : Str)
    (h : FirstOcc "AC_INIT([MySQL Server], [".toList str pre (r ++ ']' :: rest))
    (hr : ']' ∉ r) : GetVersion str = some r := by
  have h1 := indexOf_of_firstOcc _ _ _ _ h
  have hstr : str = pre ++ "AC_INIT([MySQL Server], [".toList ++ r ++ ']' :: rest := by
    rw [h.1]; simp only [List.append_assoc]
  have hlen : (pre.length : Int) + ("AC_INIT([MySQL Server], [".toList.length : Nat) =
      ((pre ++ "AC_INIT([MySQL Server], [".toList).length : Nat) := by
    rw [List.length_append]; push_cast; rfl
  have h2 : indexOf str [']']
      ((pre.length : Int) + ("AC_INIT([MySQL Server], [".toList.length : Nat)) =
      (((pre ++ "AC_INIT([MySQL Server], [".toList).length + r.length : Nat) : Int) := by
    have := indexOf_char_found (pre ++ "AC_INIT([MySQL Server], [".toList) r rest ']'
      ((pre.length : Int) + ("AC_INIT([MySQL Server], [".toList.length : Nat)) hlen hr
    rw [← hstr] at this
    exact this
  have h3 : substring str
      ((pre.length : Int) + ("AC_INIT([MySQL Server], [".toList.length : Nat))
      (((pre ++ "AC_INIT([MySQL Server], [".toList).length + r.length : Nat) : Int) = r := by
    have := substring_mid (pre ++ "AC_INIT([MySQL Server], [".toList) r (']' :: rest)
      ((pre.length : Int) + ("AC_INIT([MySQL Server], [".toList.length : Nat))
      (((pre ++ "AC_INIT([MySQL Server], [".toList).length + r.length : Nat) : Int) hlen rfl
    rw [← hstr] at this
    exact this
  simp only [GetVersion, h1, natCast_ne_neg_one, if_false, h2, h3]

/-- C13. `GetVersion` returns `null` if and only if the marker `AC_INIT([MySQL Server], [`
does not occur in the text or no `]` follows its first occurrence; otherwise the text
after the first occurrence of the marker is `r`, then `]`, with no `]` in `r`, and the
result is `r`. `GetVersion("AC_INIT([MySQL Server], [5.1.7-beta])")` is `5.1.7-beta`. -/
theorem GetVersion_spec (str : Str) :
    (GetVersion str = none ↔
        (¬ "AC_INIT([MySQL Server], [".toList <:+: str ∨
          ∃ pre post, FirstOcc "AC_INIT([MySQL Server], [".toList str pre post ∧ ']' ∉ post)) ∧
      (∀ pre post, FirstOcc "AC_INIT([MySQL Server], [".toList str pre post → ']' ∈ post →
        ∃ r rest, post = r ++ ']' :: rest ∧ ']' ∉ r ∧ GetVersion str = some r) ∧
      GetVersion "AC_INIT([MySQL Server], [5.1.7-beta])".toList = some "5.1.7-beta".toList := by
  have hclosed : ∀ pre post, FirstOcc "AC_INIT([MySQL Server], [".toList str pre post →
      ']' ∈ post → ∃ r rest, post = r ++ ']' :: rest ∧ ']' ∉ r ∧ GetVersion str = some r := by
    intro pre post hf hmem
    obtain ⟨r, rest, hpost, hr⟩ := mem_split_first ']' post hmem
    refine ⟨r, rest, hpost, hr, ?_⟩
    rw [hpost] at hf
    exact GetVersion_of_firstOcc_closed str pre r rest hf hr
  refine ⟨?_, hclosed, by decide⟩
  constructor
  · intro hnone
    rcases indexOf_zero_spec str "AC_INIT([MySQL Server], [".toList with
      ⟨_, h2⟩ | ⟨pre, post, hf, _⟩
    · exact Or.inl h2
    · right
      refine ⟨pre, post, hf, ?_⟩
      intro hmem
      obtain ⟨r, _, _, _, hsome⟩ := hclosed pre post hf hmem
      rw [hnone] at hsome
      cases hsome
  · rintro (hno | ⟨pre, post, hf, hp⟩)
    · rcases indexOf_zero_spec str "AC_INIT([MySQL Server], [".toList with
        ⟨h1, _⟩ | ⟨pre, post, hf, _⟩
      · simp only [GetVersion, h1, if_true]
      · exact absurd (FirstOcc_occurs _ _ _ _ hf) hno
    · exact GetVersion_of_firstOcc_open str pre post hf hp

/-- C12, the code at `GetValue("FOO=\"\nBAZ=1", "FOO")`, where the value between `FOO=`
and the newline is a single double quote: `pos` moves past the quote and `end` moves
before it, so `substring(5, 4)` swaps its arguments and returns the quote itself, not the
empty string. On the example of the specification, `FOO="bar"`, the result is `bar`. -/
theorem GetValue_single_quote :
    GetValue "FOO=\"\nBAZ=1".toList "FOO".toList = some "\"".toList ∧
      GetValue "FOO=\"\nBAZ=1".toList "FOO".toList ≠ some [] ∧
      GetValue "FOO=\"bar\"\nBAZ=1".toList "FOO".toList = some "bar".toList ∧
      GetValue "FOO=\"\"\nBAZ=1".toList "FOO".toList = some [] := by
  decide

/-! ## The port pair and arguments without `=` -/

theorem item_cases (parts : List Str) (k : Nat) :
    item parts k = .undefined ∨ ∃ s, item parts k = .str s := by
  unfold item
  cases parts[k]? with
  | none => exact Or.inl rfl
  | some s => exact Or.inr ⟨s, rfl⟩

theorem lastValue_cases (k : Str) (d : JSVal) (l : List Str) :
    lastValue k d l = d ∨ lastValue k d l = .undefined ∨ ∃ s, lastValue k d l = .str s := by
  induction l generalizing d with
  | nil => exact Or.inl rfl
  | cons a rest ih =>
    by_cases hk : argName a = k
    · rw [lastValue_cons_named k d a rest hk]
      rcases ih (item (split '=' a) 1) with h | h | h
      · rw [h]
        rcases item_cases (split '=' a) 1 with e | e
        · exact Or.inr (Or.inl e)
        · exact Or.inr (Or.inr e)
      · exact Or.inr (Or.inl h)
      · exact Or.inr (Or.inr h)
    · rw [lastValue_cons_other k d a rest hk]
      exact ih d

theorem port_line_cancel (x y : Str)
    (h : "SET (MYSQL_TCP_PORT \"".toList ++ x ++ "\")".toList =
      "SET (MYSQL_TCP_PORT \"".toList ++ y ++ "\")".toList) : x = y :=
  List.append_cancel_left (List.append_cancel_right h)

/-- C17. The file ends with the `MYSQL_TCP_PORT_DEFAULT` line and the `MYSQL_TCP_PORT` line;
the former carries `0` or `3306`; when it carries `0` the latter is
`SET (MYSQL_TCP_PORT "3306")`; and the latter is never `SET (MYSQL_TCP_PORT "0")`. -/
theorem configure_port_pair (args : List Str) :
    ∃ pre d p, (configure args).configfile =
        pre ++ ["SET (MYSQL_TCP_PORT_DEFAULT \"".toList ++ d ++ "\")".toList,
          "SET (MYSQL_TCP_PORT \"".toList ++ p ++ "\")".toList] ∧
      (d = "0".toList ∨ d = "3306".toList) ∧
      (d = "0".toList → p = "3306".toList) ∧
      "SET (MYSQL_TCP_PORT \"".toList ++ p ++ "\")".toList ≠ "SET (MYSQL_TCP_PORT \"0\")".toList := by
  have hfile := configure_file args
  have hsplit : ∀ (fl : List Str) (c d p : Str), fl ++ [c, d, p] = (fl ++ [c]) ++ [d, p] := by
    intro fl c d p
    simp
  have hlit : "SET (MYSQL_TCP_PORT \"0\")".toList =
      "SET (MYSQL_TCP_PORT \"".toList ++ "0".toList ++ "\")".toList := by decide
  cases hz : looseEqZero (lastValue "MYSQL_TCP_PORT".toList (.num (.int 0)) args)
  · rw [hz] at hfile
    simp only [Bool.false_eq_true, if_false] at hfile
    refine ⟨_, "3306".toList,
      (lastValue "MYSQL_TCP_PORT".toList (.num (.int 0)) args).toStr,
      (hfile.trans (hsplit _ _ _ _)), Or.inr rfl, ?_, ?_⟩
    · intro h
      exact absurd h (by decide)
    · intro h
      rw [hlit] at h
      have hp := port_line_cancel _ _ h
      rcases lastValue_cases "MYSQL_TCP_PORT".toList (.num (.int 0)) args with e | e | ⟨s, e⟩
      · rw [e] at hz; revert hz; decide
      · rw [e] at hp; revert hp; decide
      · rw [e] at hp hz
        have hs : s = "0".toList := hp
        rw [hs] at hz
        revert hz; decide
  · rw [hz] at hfile
    simp only [if_true] at hfile
    refine ⟨_, "0".toList, "3306".toList, (hfile.trans (hsplit _ _ _ _)), Or.inl rfl,
      fun _ => rfl, by decide⟩

/-- C18. When the last argument named `MYSQL_TCP_PORT` is the bare token `MYSQL_TCP_PORT`,
the file ends with `SET (MYSQL_TCP_PORT_DEFAULT "3306")` and `SET (MYSQL_TCP_PORT "undefined")`;
when it is `MYSQL_TCP_PORT=` the run equals the run on the list with every argument named
`MYSQL_TCP_PORT` removed; and when the last argument named `COMPILATION_COMMENT` is the
bare token, the comment line is `SET (COMPILATION_COMMENT "undefined")`. -/
theorem configure_bare_arguments (l1 l2 m1 m2 : List Str)
    (hP : ∀ a ∈ l2, argName a ≠ "MYSQL_TCP_PORT".toList)
    (hC : ∀ a ∈ m2, argName a ≠ "COMPILATION_COMMENT".toList) :
    (∃ pre, (configure (l1 ++ "MYSQL_TCP_PORT".toList :: l2)).configfile =
        pre ++ ["SET (MYSQL_TCP_PORT_DEFAULT \"3306\")".toList,
          "SET (MYSQL_TCP_PORT \"undefined\")".toList]) ∧
      configure (l1 ++ "MYSQL_TCP_PORT=".toList :: l2) =
        configure ((l1 ++ "MYSQL_TCP_PORT=".toList :: l2).filter
          (fun a => decide (argName a ≠ "MYSQL_TCP_PORT".toList))) ∧
      ∃ pre d p, (configure (m1 ++ "COMPILATION_COMMENT".toList :: m2)).configfile =
        pre ++ ["SET (COMPILATION_COMMENT \"undefined\")".toList, d, p] := by
  have hsplit : ∀ (fl : List Str) (c d p : Str), fl ++ [c, d, p] = (fl ++ [c]) ++ [d, p] := by
    intro fl c d p
    simp
  refine ⟨?_, ?_, ?_⟩
  · have hname : argName "MYSQL_TCP_PORT".toList = "MYSQL_TCP_PORT".toList := by decide
    have hval : item (split '=' "MYSQL_TCP_PORT".toList) 1 = .undefined := by decide
    have hz : ¬ looseEqZero .undefined = true := by decide
    have hfile := configure_file (l1 ++ "MYSQL_TCP_PORT".toList :: l2)
    rw [lastValue_last "MYSQL_TCP_PORT".toList _ l1 l2 _ hname hP, hval, if_neg hz,
      if_neg hz] at hfile
    exact ⟨_, hfile.trans (hsplit _ _ _ _)⟩
  · have hname : argName "MYSQL_TCP_PORT=".toList = "MYSQL_TCP_PORT".toList := by decide
    have hval : item (split '=' "MYSQL_TCP_PORT=".toList) 1 = .str [] := by decide
    have hz : looseEqZero (.str []) = true := by decide
    have hz0 : looseEqZero (.num (.int 0)) = true := by decide
    have hfile := configure_file (l1 ++ "MYSQL_TCP_PORT=".toList :: l2)
    rw [lastValue_last "MYSQL_TCP_PORT".toList _ l1 l2 _ hname hP, hval, if_pos hz,
      if_pos hz] at hfile
    apply configure_eq_of_file
    rw [hfile, configure_file, flagLines_filter, lastValue_filter, lastValue_of_none
      "MYSQL_TCP_PORT".toList, if_pos hz0, if_pos hz0]
    · intro a ha
      simpa using (List.mem_filter.mp ha).2
    · intro a ha
      have : argName a ≠ "MYSQL_TCP_PORT".toList := by rw [ha]; decide
      simpa using this
    · intro a ha
      simpa using flagKey_ne_port _ ha
  · have hname : argName "COMPILATION_COMMENT".toList = "COMPILATION_COMMENT".toList := by
      decide
    have hval : item (split '=' "COMPILATION_COMMENT".toList) 1 = .undefined := by decide
    have hfile := configure_file (m1 ++ "COMPILATION_COMMENT".toList :: m2)
    rw [lastValue_last "COMPILATION_COMMENT".toList _ m1 m2 _ hname hC, hval] at hfile
    exact ⟨_, _, _, hfile⟩

/-- C18 at the arguments `MYSQL_TCP_PORT=7`, then the bare or empty-valued port token, then
`__NT__`; and at `__NT__`, the bare comment token, `MYSQL_TCP_PORT=7`. -/
theorem configure_bare_arguments_witness :
    (∀ a ∈ ["__NT__".toList], argName a ≠ "MYSQL_TCP_PORT".toList) ∧
    (∀ a ∈ ["MYSQL_TCP_PORT=7".toList], argName a ≠ "COMPILATION_COMMENT".toList) ∧
    ((∃ pre, (configure (["MYSQL_TCP_PORT=7".toList] ++ "MYSQL_TCP_PORT".toList ::
          ["__NT__".toList])).configfile =
        pre ++ ["SET (MYSQL_TCP_PORT_DEFAULT \"3306\")".toList,
          "SET (MYSQL_TCP_PORT \"undefined\")".toList]) ∧
      configure (["MYSQL_TCP_PORT=7".toList] ++ "MYSQL_TCP_PORT=".toList :: ["__NT__".toList]) =
        configure ((["MYSQL_TCP_PORT=7".toList] ++ "MYSQL_TCP_PORT=".toList ::
          ["__NT__".toList]).filter (fun a => decide (argName a ≠ "MYSQL_TCP_PORT".toList))) ∧
      ∃ pre d p, (configure (["__NT__".toList] ++ "COMPILATION_COMMENT".toList ::
          ["MYSQL_TCP_PORT=7".toList])).configfile =
        pre ++ ["SET (COMPILATION_COMMENT \"undefined\")".toList, d, p]) :=
  ⟨by decide, by decide, configure_bare_arguments _ _ _ _ (by decide) (by decide)⟩

/-! ## Decimal numerals through `parseInt` and back -/

theorem eq_of_toNat_eq (c d : Char) (h : c.toNat = d.toNat) : c = d :=
  Classical.byContradiction fun hne => toNat_ne_of_ne c d hne h

theorem digitChar_of_digit (c : Char) (h : c.isDigit = true) :
    Nat.digitChar (c.toNat - 48) = c := by
  obtain ⟨h1, h2⟩ := digit_bounds c h
  have hc : c = '0' ∨ c = '1' ∨ c = '2' ∨ c = '3' ∨ c = '4' ∨ c = '5' ∨ c = '6' ∨ c = '7' ∨
      c = '8' ∨ c = '9' := by
    have h48 : c.toNat = 48 ∨ c.toNat = 49 ∨ c.toNat = 50 ∨ c.toNat = 51 ∨ c.toNat = 52 ∨
        c.toNat = 53 ∨ c.toNat = 54 ∨ c.toNat = 55 ∨ c.toNat = 56 ∨ c.toNat = 57 := by omega
    rcases h48 with e | e | e | e | e | e | e | e | e | e
    · exact Or.inl (eq_of_toNat_eq c '0' e)
    · exact Or.inr (Or.inl (eq_of_toNat_eq c '1' e))
    · exact Or.inr (Or.inr (Or.inl (eq_of_toNat_eq c '2' e)))
    · exact Or.inr (Or.inr (Or.inr (Or.inl (eq_of_toNat_eq c '3' e))))
    · exact Or.inr (Or.inr (Or.inr (Or.inr (Or.inl (eq_of_toNat_eq c '4' e)))))
    · exact Or.inr (Or.inr (Or.inr (Or.inr (Or.inr (Or.inl (eq_of_toNat_eq c '5' e))))))
    · exact Or.inr (Or.inr (Or.inr (Or.inr (Or.inr (Or.inr (Or.inl (eq_of_toNat_eq c '6' e)))))))
    · exact Or.inr (Or.inr (Or.inr (Or.inr (Or.inr (Or.inr (Or.inr
        (Or.inl (eq_of_toNat_eq c '7' e))))))))
    · exact Or.inr (Or.inr (Or.inr (Or.inr (Or.inr (Or.inr (Or.inr
        (Or.inr (Or.inl (eq_of_toNat_eq c '8' e)))))))))
    · exact Or.inr (Or.inr (Or.inr (Or.inr (Or.inr (Or.inr (Or.inr
        (Or.inr (Or.inr (eq_of_toNat_eq c '9' e)))))))))
  rcases hc with rfl | rfl | rfl | rfl | rfl | rfl | rfl | rfl | rfl | rfl <;> decide

theorem digitsVal_snoc (init : Str) (c : Char) :
    digitsVal (init ++ [c]) = 10 * digitsVal init + (c.toNat - 48) := by
  simp [digitsVal, List.foldl_append]

theorem toDigitsCore_digitsVal (M : Str) :
    M ≠ [] → (∀ c ∈ M, c.isDigit = true) → M.head? ≠ some '0' →
      ∀ fuel acc, digitsVal M < fuel →
        Nat.toDigitsCore 10 fuel (digitsVal M) acc = M ++ acc := by
  induction M using List.reverseRecOn with
  | nil => intro h; exact absurd rfl h
  | append_singleton init c ih =>
    intro _ hd hlead fuel acc hfuel
    have hcd : c.isDigit = true := hd c (by simp)
    have hc9 : c.toNat - 48 ≤ 9 := by
      have := digit_bounds c hcd
      omega
    rw [digitsVal_snoc] at hfuel ⊢
    cases fuel with
    | zero => omega
    | succ f =>
      have hmod : (10 * digitsVal init + (c.toNat - 48)) % 10 = c.toNat - 48 := by omega
      have hdiv : (10 * digitsVal init + (c.toNat - 48)) / 10 = digitsVal init := by omega
      simp only [Nat.toDigitsCore, hmod, hdiv, digitChar_of_digit c hcd]
      by_cases hinit : init = []
      · subst hinit
        simp [digitsVal]
      · have hid : ∀ x ∈ init, x.isDigit = true := fun x hx => hd x (by simp [hx])
        have hhead : init.head? ≠ some '0' := by
          cases init with
          | nil => exact absurd rfl hinit
          | cons x xs => simpa using hlead
        have hpos : 0 < digitsVal init := by
          cases init with
          | nil => exact absurd rfl hinit
          | cons x xs =>
            apply digitsVal_pos _ hid
            exact ⟨x, by simp, by simpa using hhead⟩
        rw [if_neg (by omega), ih hinit hid hhead f (c :: acc) (by omega)]
        simp

theorem toDigits_digitsVal (M : Str) (hM : M ≠ []) (hd : ∀ c ∈ M, c.isDigit = true)
    (hlead : M = ['0'] ∨ M.head? ≠ some '0') : Nat.toDigits 10 (digitsVal M) = M := by
  rcases hlead with rfl | hlead
  · decide
  · have := toDigitsCore_digitsVal M hM hd hlead (digitsVal M + 1) [] (by omega)
    simpa [Nat.toDigits] using this

theorem ofInt_small (n : Nat) (h : n < 2 ^ 53) : JSNum.ofInt (n : Int) = .int (n : Int) := by
  show JSNum.ofInt (Int.ofNat n) = _
  simp only [JSNum.ofInt, roundNat, if_pos h]

theorem parseInt_digits (M : Str) (hM : M ≠ []) (hd : ∀ c ∈ M, c.isDigit = true) :
    parseInt M = JSNum.ofInt (digitsVal M : Int) := by
  cases M with
  | nil => exact absurd rfl hM
  | cons c r =>
    have hcd : c.isDigit = true := hd c (by simp)
    have hws : isStrWhiteSpaceChar c = false := digit_not_space c hcd
    have hsg : ¬ (c = '+' ∨ c = '-') := by
      rintro (h | h) <;> (rw [h] at hcd; revert hcd; decide)
    have hminus : c ≠ '-' := fun h => hsg (Or.inr h)
    have htake : (c :: r).takeWhile Char.isDigit = c :: r := List.takeWhile_eq_self_iff.mpr hd
    unfold parseInt
    rw [List.dropWhile_cons, hws]
    simp only [Bool.false_eq_true, if_false, hsg, htake]
    rw [if_neg (by simp), if_neg (by simpa using hminus)]

theorem toStr_int_small (n : Nat) (h : n < 2 ^ 53) :
    (JSNum.int (n : Int)).toStr = Nat.toDigits 10 n := by
  show (JSNum.int (Int.ofNat n)).toStr = _
  simp only [JSNum.toStr, natToStr, if_pos h]

theorem digitsVal_single (x : Char) : digitsVal [x] = x.toNat - 48 := by
  simp [digitsVal]

theorem parseInt_single (x : Char) (hx : x.isDigit = true) :
    parseInt [x] = .int ((x.toNat - 48 : Nat) : Int) ∧
      (JSNum.int ((x.toNat - 48 : Nat) : Int)).lt 10 = true ∧
      (JSNum.int ((x.toNat - 48 : Nat) : Int)).toStr = [x] := by
  have hb := digit_bounds x hx
  have hsmall : x.toNat - 48 < 2 ^ 53 := by
    have : (2 : Nat) ^ 53 = 9007199254740992 := by norm_num
    omega
  have hd : ∀ c ∈ [x], c.isDigit = true := by
    intro c hc
    rw [List.mem_singleton.mp hc]; exact hx
  refine ⟨?_, ?_, ?_⟩
  · rw [parseInt_digits [x] (by simp) hd, digitsVal_single, ofInt_small _ hsmall]
  · simp only [JSNum.lt, decide_eq_true_eq]
    omega
  · rw [toStr_int_small _ hsmall, ← digitsVal_single]
    apply toDigits_digitsVal [x] (by simp) hd
    by_cases h0 : x = '0'
    · exact Or.inl (by rw [h0])
    · exact Or.inr (by simpa using h0)

/-! ## `GetVersionId` on one-digit minor and build -/

theorem digit_ne (x c : Char) (hx : x.isDigit = true) (hc : c.isDigit = false) : c ∉ [x] := by
  intro h
  rw [List.mem_singleton.mp h] at hc
  rw [hx] at hc
  cases hc

/-- C16, as the code has it. For a version `M.m.b` or `M.m.b-suffix` with `M` the decimal
numeral, without leading zeros, of a natural number below `2 ^ 53` and `m`, `b` single
digits, `GetVersionId` returns the string `M` + `0` + `m` + `0` + `b`, of length
`|M| + 4`, whatever the suffix. -/
theorem GetVersionId_single_digits (M : Str) (m b : Char) (rest : Str)
    (hM : M ≠ []) (hMd : ∀ c ∈ M, c.isDigit = true) (hlead : M = ['0'] ∨ M.head? ≠ some '0')
    (hbound : digitsVal M < 2 ^ 53) (hm : m.isDigit = true) (hb : b.isDigit = true)
    (hrest : rest = [] ∨ ∃ suffix, rest = '-' :: suffix) :
    GetVersionId (M ++ '.' :: m :: '.' :: b :: rest) = some (.str (M ++ ['0', m, '0', b])) ∧
      (M ++ ['0', m, '0', b]).length = M.length + 4 ∧
      GetVersionId (M ++ '.' :: m :: '.' :: b :: rest) = GetVersionId (M ++ ['.', m, '.', b]) := by
  have key : ∀ rest : Str, (rest = [] ∨ ∃ suffix, rest = '-' :: suffix) →
      GetVersionId (M ++ '.' :: m :: '.' :: b :: rest) = some (.str (M ++ ['0', m, '0', b])) := by
    intro rest hrest
    have hdotM : '.' ∉ M := by
      intro h
      have := hMd '.' h
      revert this; decide
    have hv1 : ([] : Str) ++ M ++ '.' :: (m :: '.' :: b :: rest) =
        M ++ '.' :: m :: '.' :: b :: rest := by simp
    have hv2 : (M ++ ['.']) ++ [m] ++ '.' :: (b :: rest) =
        M ++ '.' :: m :: '.' :: b :: rest := by simp
    have hv3 : (M ++ ['.', m, '.']) ++ [b] ++ rest = M ++ '.' :: m :: '.' :: b :: rest := by simp
    have h1 : indexOf (M ++ '.' :: m :: '.' :: b :: rest) ['.'] 0 = (M.length : Int) := by
      have := indexOf_char_found [] M (m :: '.' :: b :: rest) '.' 0 rfl hdotM
      rw [hv1] at this
      simpa using this
    have hs1 : substring (M ++ '.' :: m :: '.' :: b :: rest) 0 (M.length : Int) = M := by
      have := substring_mid [] M ('.' :: m :: '.' :: b :: rest) 0 (M.length : Int) rfl (by simp)
      rw [hv1] at this
      exact this
    have h2 : indexOf (M ++ '.' :: m :: '.' :: b :: rest) ['.'] ((M.length : Int) + 1) =
        ((M.length + 2 : Nat) : Int) := by
      have := indexOf_char_found (M ++ ['.']) [m] (b :: rest) '.' ((M.length : Int) + 1)
        (by simp) (digit_ne m '.' hm (by decide))
      rw [hv2] at this
      simpa using this
    have hs2 : substring (M ++ '.' :: m :: '.' :: b :: rest) ((M.length : Int) + 1)
        ((M.length + 2 : Nat) : Int) = [m] := by
      have := substring_mid (M ++ ['.']) [m] ('.' :: b :: rest) ((M.length : Int) + 1)
        ((M.length + 2 : Nat) : Int) (by simp) (by simp; omega)
      rw [hv2] at this
      exact this
    have hs3 : substring (M ++ '.' :: m :: '.' :: b :: rest) (((M.length + 2 : Nat) : Int) + 1)
        (if indexOf (M ++ '.' :: m :: '.' :: b :: rest) ['-'] (((M.length + 2 : Nat) : Int) + 1) = -1
          then ((M ++ '.' :: m :: '.' :: b :: rest).length : Int)
          else indexOf (M ++ '.' :: m :: '.' :: b :: rest) ['-']
            (((M.length + 2 : Nat) : Int) + 1)) = [b] := by
      have hp : ((M.length + 2 : Nat) : Int) + 1 = ((M ++ ['.', m, '.']).length : Int) := by
        simp; omega
      have hstop : (if indexOf (M ++ '.' :: m :: '.' :: b :: rest) ['-']
            (((M.length + 2 : Nat) : Int) + 1) = -1
          then ((M ++ '.' :: m :: '.' :: b :: rest).length : Int)
          else indexOf (M ++ '.' :: m :: '.' :: b :: rest) ['-']
            (((M.length + 2 : Nat) : Int) + 1)) =
          (((M ++ ['.', m, '.']).length + [b].length : Nat) : Int) := by
        rcases hrest with rfl | ⟨suffix, rfl⟩
        · have := indexOf_char_none (M ++ ['.', m, '.']) [b] '-'
            (((M.length + 2 : Nat) : Int) + 1) hp (digit_ne b '-' hb (by decide))
          rw [show (M ++ ['.', m, '.']) ++ [b] = M ++ '.' :: m :: '.' :: b :: [] by simp] at this
          rw [this, if_pos rfl]
          simp
          omega
        · have := indexOf_char_found (M ++ ['.', m, '.']) [b] suffix '-'
            (((M.length + 2 : Nat) : Int) + 1) hp (digit_ne b '-' hb (by decide))
          rw [show (M ++ ['.', m, '.']) ++ [b] ++ '-' :: suffix =
            M ++ '.' :: m :: '.' :: b :: '-' :: suffix by simp] at this
          rw [this, if_neg (natCast_ne_neg_one _)]
      rw [hstop]
      have := substring_mid (M ++ ['.', m, '.']) [b] rest (((M.length + 2 : Nat) : Int) + 1)
        (((M ++ ['.', m, '.']).length + [b].length : Nat) : Int) hp rfl
      rw [hv3] at this
      exact this
    obtain ⟨hpm, hltm, hstrm⟩ := parseInt_single m hm
    obtain ⟨hpb, hltb, hstrb⟩ := parseInt_single b hb
    have hpM : parseInt M = .int (digitsVal M : Int) := by
      rw [parseInt_digits M hM hMd, ofInt_small _ hbound]
    have hstrM : (JSNum.int (digitsVal M : Int)).toStr = M := by
      rw [toStr_int_small _ hbound]
      exact toDigits_digitsVal M hM hMd hlead
    simp only [GetVersionId, h1, natCast_ne_neg_one, if_false, h2, hs1, hs2, hs3, hpM, hpm, hpb,
      hltm, hltb, if_true, JSVal.add, JSVal.toStr, hstrM, hstrm, hstrb]
    simp
  refine ⟨key rest hrest, by simp, ?_⟩
  rw [key rest hrest]
  exact (key [] (Or.inl rfl)).symm

/-- C16 at `5.1.7-beta`, whose id is `50107`, the id of `5.1.7`. -/
theorem GetVersionId_single_digits_witness :
    "5".toList ≠ [] ∧ (∀ c ∈ "5".toList, c.isDigit = true) ∧
      ("5".toList = ['0'] ∨ "5".toList.head? ≠ some '0') ∧ digitsVal "5".toList < 2 ^ 53 ∧
      ('1' : Char).isDigit = true ∧ ('7' : Char).isDigit = true ∧
      ("-beta".toList = [] ∨ ∃ suffix, "-beta".toList = '-' :: suffix) ∧
      (GetVersionId ("5".toList ++ '.' :: '1' :: '.' :: '7' :: "-beta".toList) =
          some (.str ("5".toList ++ ['0', '1', '0', '7'])) ∧
        ("5".toList ++ ['0', '1', '0', '7']).length = "5".toList.length + 4 ∧
        GetVersionId ("5".toList ++ '.' :: '1' :: '.' :: '7' :: "-beta".toList) =
          GetVersionId ("5".toList ++ ['.', '1', '.', '7'])) :=
  ⟨by decide, by decide, by decide, by decide, by decide, by decide, Or.inr ⟨_, rfl⟩,
    GetVersionId_single_digits _ _ _ _ (by decide) (by decide) (by decide) (by decide)
      (by decide) (by decide) (Or.inr ⟨_, rfl⟩)⟩

/-- C16 fails as stated: `90071992547409921` is the numeral, without leading zeros, of a
natural number, and `1`, `7` are single digits, yet `parseInt` gives the nearest double,
`90071992547409920`, so the id of `90071992547409921.1.7` is `900719925474099200107` and
not `M` + `0107`. -/
theorem GetVersionId_major_above_2_pow_53 :
    (∀ c ∈ "90071992547409921".toList, c.isDigit = true) ∧
      "90071992547409921".toList.head? ≠ some '0' ∧
      GetVersionId "90071992547409921.1.7".toList =
        some (.str "900719925474099200107".toList) ∧
      GetVersionId "90071992547409921.1.7".toList ≠
        some (.str ("90071992547409921".toList ++ ['0', '1', '0', '7'])) := by
  decide

/-! ## `GetValue` when a newline follows -/

theorem charAt_at (A B : Str) (x : Char) (p : Int) (hp : p = (A.length : Int)) :
    charAt (A ++ x :: B) p = [x] := by
  subst hp
  have h1 : (A ++ x :: B)[A.length]? = some x := by
    rw [List.getElem?_append_right (Nat.le_refl _)]
    simp
  unfold charAt
  rw [if_neg (by omega), Int.toNat_natCast, h1]

theorem eq_nil_or_snoc (v : Str) : v = [] ∨ ∃ w l, v = w ++ [l] := by
  rcases List.eq_nil_or_concat v with h | ⟨w, l, h⟩
  · exact Or.inl h
  · exact Or.inr ⟨w, l, by rw [h, List.concat_eq_append]⟩

theorem getLast?_snoc (w : Str) (l : Char) : (w ++ [l]).getLast? = some l := by simp

theorem dropLast_snoc (w : Str) (l : Char) : (w ++ [l]).dropLast = w := by simp

theorem stripQuotes_snoc (w : Str) (l : Char) :
    stripQuotes (w ++ [l]) =
      if l = '"' then (if (w ++ [l]).head? = some '"' then (w ++ [l]).drop 1 else w ++ [l]).dropLast
      else if (w ++ [l]).head? = some '"' then (w ++ [l]).drop 1 else w ++ [l] := by
  unfold stripQuotes
  rw [getLast?_snoc]
  by_cases hl : l = '"'
  · rw [if_pos (by rw [hl]), if_pos hl]
  · rw [if_neg (by simpa using hl), if_neg hl]

/-- Away from the value made of a single `"`, `GetValue` does what the specification says
when a newline follows: with `v` the text between the first `key=` and the next newline,
the result is `v` without its opening and its closing quote. -/
theorem GetValue_with_newline (text key pre v rest : Str)
    (hf : FirstOcc (key ++ ['=']) text pre (v ++ '\n' :: rest)) (hv : '\n' ∉ v)
    (hq : v ≠ ['"']) : GetValue text key = some (stripQuotes v) := by
  have h0 := indexOf_of_firstOcc _ _ _ _ hf
  have htext : text = pre ++ key ++ '=' :: (v ++ '\n' :: rest) := by
    rw [hf.1]; simp
  have hA : ((pre ++ key ++ ['=']).length : Int) =
      (pre.length : Int) + (key.length : Int) + 1 := by
    simp only [List.length_append, List.length_cons, List.length_nil]; omega
  have hstop : indexOf text ['\n'] ((pre.length : Int) + (key.length : Int) + 1) =
      (((pre ++ key ++ ['=']).length + v.length : Nat) : Int) := by
    have := indexOf_char_found (pre ++ key ++ ['=']) v rest '\n'
      ((pre.length : Int) + (key.length : Int) + 1) hA.symm hv
    rw [show pre ++ key ++ ['='] ++ v ++ '\n' :: rest = text by rw [htext]; simp] at this
    exact this
  have hsub : ∀ (A mid B : Str) (p q : Int), text = A ++ mid ++ B → p = (A.length : Int) →
      q = ((A.length + mid.length : Nat) : Int) → substring text p q = mid := by
    intro A mid B p q ht hp hq
    rw [ht]; exact substring_mid A mid B p q hp hq
  have hchar : ∀ (A B : Str) (x : Char) (p : Int), text = A ++ x :: B → p = (A.length : Int) →
      charAt text p = [x] := by
    intro A B x p ht hp
    rw [ht]; exact charAt_at A B x p hp
  simp only [GetValue, h0, natCast_ne_neg_one, if_false, hstop]
  rcases eq_nil_or_snoc v with hnil | ⟨w, l, hwl⟩
  · subst hnil
    have c1 := hchar (pre ++ key ++ ['=']) rest '\n'
      ((pre.length : Int) + (key.length : Int) + 1) (by rw [htext]; simp) hA.symm
    have c2 := hchar (pre ++ key) ('\n' :: rest) '='
      ((((pre ++ key ++ ['=']).length + ([] : Str).length : Nat) : Int) - 1)
      (by rw [htext]; simp)
      (by simp only [List.length_append, List.length_cons, List.length_nil]; omega)
    rw [c1, c2, if_neg (by decide), if_neg (by decide)]
    rw [hsub (pre ++ key ++ ['=']) [] ('\n' :: rest) _ _ (by rw [htext]; simp) hA.symm rfl]
    rfl
  · subst hwl
    have c2 := hchar (pre ++ key ++ ['='] ++ w) ('\n' :: rest) l
      ((((pre ++ key ++ ['=']).length + (w ++ [l]).length : Nat) : Int) - 1)
      (by rw [htext]; simp)
      (by simp only [List.length_append, List.length_cons, List.length_nil]; omega)
    rw [c2]
    cases w with
    | nil =>
      have hl : l ≠ '"' := fun e => hq (by rw [e]; rfl)
      have c1 := hchar (pre ++ key ++ ['=']) ('\n' :: rest) l
        ((pre.length : Int) + (key.length : Int) + 1) (by rw [htext]; simp) hA.symm
      rw [c1, if_neg (by simpa using hl), if_neg (by simpa using hl)]
      rw [hsub (pre ++ key ++ ['=']) ([] ++ [l]) ('\n' :: rest) _ _ (by rw [htext]; simp)
        hA.symm rfl]
      rw [stripQuotes_snoc, if_neg hl, if_neg (by simpa using hl)]
    | cons x u =>
      have c1 := hchar (pre ++ key ++ ['=']) (u ++ l :: '\n' :: rest) x
        ((pre.length : Int) + (key.length : Int) + 1) (by rw [htext]; simp) hA.symm
      rw [c1]
      by_cases hx : x = '"'
      · by_cases hl : l = '"'
        · rw [if_pos (by rw [hx]), if_pos (by rw [hl])]
          rw [hsub (pre ++ key ++ ['=', x]) u (l :: '\n' :: rest) _ _ (by rw [htext]; simp)
            (by simp only [List.length_append, List.length_cons, List.length_nil]; omega)
            (by simp only [List.length_append, List.length_cons, List.length_nil]; omega)]
          rw [stripQuotes_snoc, if_pos hl, if_pos (by rw [hx]; rfl)]
          exact congrArg some (dropLast_snoc u l).symm
        · rw [if_pos (by rw [hx]), if_neg (by simpa using hl)]
          rw [hsub (pre ++ key ++ ['=', x]) (u ++ [l]) ('\n' :: rest) _ _
            (by rw [htext]; simp)
            (by simp only [List.length_append, List.length_cons, List.length_nil]; omega)
            (by simp only [List.length_append, List.length_cons, List.length_nil]; omega)]
          rw [stripQuotes_snoc, if_neg hl, if_pos (by rw [hx]; rfl)]
          rfl
      · by_cases hl : l = '"'
        · rw [if_neg (by simpa using hx), if_pos (by rw [hl])]
          rw [hsub (pre ++ key ++ ['=']) (x :: u) (l :: '\n' :: rest) _ _
            (by rw [htext]; simp) hA.symm
            (by simp only [List.length_append, List.length_cons, List.length_nil]; omega)]
          rw [stripQuotes_snoc, if_pos hl, if_neg (by simpa using hx)]
          exact congrArg some (dropLast_snoc (x :: u) l).symm
        · rw [if_neg (by simpa using hx), if_neg (by simpa using hl)]
          rw [hsub (pre ++ key ++ ['=']) (x :: u ++ [l]) ('\n' :: rest) _ _
            (by rw [htext]; simp) hA.symm rfl]
          rw [stripQuotes_snoc, if_neg hl, if_neg (by simpa using hx)]

/-- The lemma at the example of the specification, `FOO="bar"` followed by `BAZ=1`. -/
theorem GetValue_with_newline_witness :
    FirstOcc ("FOO".toList ++ ['=']) "FOO=\"bar\"\nBAZ=1".toList []
        ("\"bar\"".toList ++ '\n' :: "BAZ=1".toList) ∧
      '\n' ∉ "\"bar\"".toList ∧ "\"bar\"".toList ≠ ['"'] ∧
      GetValue "FOO=\"bar\"\nBAZ=1".toList "FOO".toList = some (stripQuotes "\"bar\"".toList) ∧
      stripQuotes "\"bar\"".toList = "bar".toList :=
  have hf : FirstOcc ("FOO".toList ++ ['=']) "FOO=\"bar\"\nBAZ=1".toList []
      ("\"bar\"".toList ++ '\n' :: "BAZ=1".toList) :=
    ⟨by decide, fun _ _ _ => Nat.zero_le _⟩
  ⟨hf, by decide, by decide, GetValue_with_newline _ _ _ _ _ hf (by decide) (by decide),
    by decide⟩

/-! ## The characterisations at concrete inputs -/

/-- C13 at `AC_INIT([MySQL Server], [5.1.7-beta])`: the marker occurs first at offset `0`,
a `]` follows it, and the result is the text up to that `]`. -/
theorem GetVersion_spec_witness :
    FirstOcc "AC_INIT([MySQL Server], [".toList "AC_INIT([MySQL Server], [5.1.7-beta])".toList []
        "5.1.7-beta])".toList ∧
      ']' ∈ "5.1.7-beta])".toList ∧
      ∃ r rest, "5.1.7-beta])".toList = r ++ ']' :: rest ∧ ']' ∉ r ∧
        GetVersion "AC_INIT([MySQL Server], [5.1.7-beta])".toList = some r :=
  have hf : FirstOcc "AC_INIT([MySQL Server], [".toList
      "AC_INIT([MySQL Server], [5.1.7-beta])".toList [] "5.1.7-beta])".toList :=
    ⟨by decide, fun _ _ _ => Nat.zero_le _⟩
  ⟨hf, by decide,
    (GetVersion_spec "AC_INIT([MySQL Server], [5.1.7-beta])".toList).2.1 [] _ hf (by decide)⟩

/-- C14 at `5.1.7-beta`, cut before its second `.`, and at `5.1`, returned whole. -/
theorem GetBaseVersion_spec_witness :
    '.' ∉ "5".toList ∧ '.' ∉ "1".toList ∧
      GetBaseVersion "5.1.7-beta".toList = some ("5".toList ++ '.' :: "1".toList) ∧
      GetBaseVersion "5.1".toList = some "5.1".toList :=
  ⟨by decide, by decide,
    (GetBaseVersion_spec "5.1.7-beta".toList).2.2.1 "5".toList "1".toList "7-beta".toList
      (by decide) (by decide) (by decide),
    (GetBaseVersion_spec "5.1".toList).2.1 "5".toList "1".toList (by decide) (by decide)
      (by decide)⟩

/-- C15 at `5.1.7`, which has a version id and therefore a base version. -/
theorem GetVersionId_none_iff_witness :
    GetVersionId "5.1.7".toList ≠ none ∧ GetBaseVersion "5.1.7".toList ≠ none :=
  ⟨by decide, (GetVersionId_none_iff "5.1.7".toList).2.1 (by decide)⟩

end Configure
